import Mathlib

/-!
# Signal-stack thread emulation and sampler of `platform-sigstack.cc`

A shallow embedding of the execution-context registry, the signal-trampoline
thread emulator, the thread-local slot allocator and the statistical sampler
of `deps/v8-2.4.1/src/platform-sigstack.cc`, with the properties of the
specification stated and proved over it.

Conventions of the embedding:
* the file-level statics (`main_thread_`, `current_thread_`, ...) are the
  fields of `State`; every operation passes the state explicitly;
* a `ThreadHandle::PlatformData` object is identified by its address, a
  natural number; `State.heap` gives the `thread_` record stored there;
* an operation that can end the process returns an `Outcome`, which keeps the
  state reached at the point of termination.
-/

namespace Sigstack

/-- Pointer-sized value (`void*`, `Address`); `0` is the null pointer. -/
abbrev Ptr := Nat

/-- Source: `static const int kNoThread = -1;` -/
abbrev kNoThread : Int := -1

/-- Source: `static const int kMaxThreadLocals = 16;` -/
abbrev kMaxThreadLocals : Nat := 16

/-- Largest value of the C type `int` (32 bits), the type of the two counters. -/
abbrev INT_MAX : Int := 2147483647

/-- Values taken by the function pointer `st_cb`: null after `bzero`, or the
address of `ThreadEntry`, the only function `Thread::Start` stores there. -/
inductive Callback where
  | null
  | ThreadEntry
  deriving DecidableEq, Repr

/-- Source: `struct sigthread_s`. `st_jmp` records whether the `jmp_buf` holds
a resume point captured by `setjmp`; `st_ctx` is null or the `Thread` object
(given by the address of its platform data). -/
structure sigthread_t where
  st_id : Int
  st_jmp : Bool
  st_stack : Ptr
  st_cb : Callback
  st_ctx : Option Nat
  st_locals : Fin kMaxThreadLocals → Ptr

/-- Source: `sigthread_init`: `bzero(st, sizeof(*st)); st->st_id = kNoThread;`. -/
def sigthread_init (_st : sigthread_t) : sigthread_t :=
  { st_id := kNoThread
    st_jmp := false
    st_stack := 0
    st_cb := Callback.null
    st_ctx := none
    st_locals := fun _ => 0 }

/-- Source: `sigthread_empty`: a local record passed through `sigthread_init`.
The content of the uninitialised local is irrelevant, `sigthread_init`
overwrites all of it. -/
def sigthread_empty : sigthread_t :=
  sigthread_init
    { st_id := 0, st_jmp := false, st_stack := 0, st_cb := Callback.null,
      st_ctx := none, st_locals := fun _ => 0 }

/-- Target of the pointer `current_thread_`: `&main_thread_`, or the `thread_`
record of the platform data at address `a`. -/
inductive CtxRef where
  | main
  | handle (a : Nat)
  deriving DecidableEq, Repr

/-- The file-level statics of the registry, with the store of
`ThreadHandle::PlatformData` objects. -/
structure State where
  main_thread_ : sigthread_t
  next_current_thread_id_ : Int
  current_thread_ : CtxRef
  sigthread_trampoline_complete_ : Bool
  next_local_ : Int
  heap : Nat → sigthread_t

/-- The statics as initialised at process start:
`main_thread_ = sigthread_empty()`, `next_current_thread_id_ =
main_thread_.st_id + 1`, `current_thread_ = &main_thread_`,
`sigthread_trampoline_complete_ = false`, `next_local_ = 0`. No handle has
been constructed; the store is given the `INVALID` record everywhere. -/
def State.initial : State :=
  { main_thread_ := sigthread_empty
    next_current_thread_id_ := sigthread_empty.st_id + 1
    current_thread_ := CtxRef.main
    sigthread_trampoline_complete_ := false
    next_local_ := 0
    heap := fun _ => sigthread_empty }

/-- The record a context reference points to. -/
def State.deref (s : State) : CtxRef → sigthread_t
  | CtxRef.main => s.main_thread_
  | CtxRef.handle a => s.heap a

/-- Store through a context reference. -/
def State.store (s : State) (r : CtxRef) (v : sigthread_t) : State :=
  match r with
  | CtxRef.main => { s with main_thread_ := v }
  | CtxRef.handle a => { s with heap := Function.update s.heap a v }

/-- The record `*current_thread_`. -/
def State.current (s : State) : sigthread_t :=
  s.deref s.current_thread_

/-- An assignment `current_thread_->field = ...`. -/
def State.modifyCurrent (s : State) (f : sigthread_t → sigthread_t) : State :=
  s.store s.current_thread_ (f s.current)

/-- Ways in which an operation ends the process or leaves defined behaviour. -/
inductive Fault where
  /-- A failed `ASSERT`. -/
  | assertion
  /-- A call of `exit(code)`. -/
  | exit (code : Int)
  /-- Signed overflow of an `int` counter (undefined behaviour). -/
  | signedOverflow
  /-- A call through a null function pointer or on a null object. -/
  | nullCall
  /-- A `longjmp` to a buffer no `setjmp` has filled. -/
  | badJump
  /-- The busy-wait `while (!sigthread_trampoline_complete_) ;` never ends. -/
  | hang
  deriving DecidableEq, Repr

/-- Result of an operation: a value with the state after it, or the fault
that ended the run with the state reached at that point. -/
inductive Outcome (α : Type) where
  | ok (val : α) (s : State)
  | fatal (f : Fault) (s : State)

/-- The state an outcome ends in. -/
def Outcome.state {α : Type} : Outcome α → State
  | Outcome.ok _ s => s
  | Outcome.fatal _ s => s

/-- The fault of an outcome, if any. -/
def Outcome.fault {α : Type} : Outcome α → Option Fault
  | Outcome.ok _ _ => none
  | Outcome.fatal f _ => some f

/-- Modelled from the spec: the `ASSERT` macro, declared in `checks.h`, which
is not among the sources. The specification describes a failed assertion as
fatal ("fails (assert/fatal)", "enforced by assertion, not recoverable
error"): when the condition is false the operation ends there, in the state
reached so far; when it holds the rest of the body runs. -/
def ASSERT {α : Type} (cond : Prop) [Decidable cond] (s : State)
    (rest : cond → Outcome α) : Outcome α :=
  if h : cond then rest h else Outcome.fatal Fault.assertion s

/-! ## Thread handles -/

/-- Source: `enum ThreadHandle::Kind`, as used by `Initialize`. -/
inductive Kind where
  | SELF
  | INVALID
  deriving DecidableEq, Repr

/-- Source: `ThreadHandle::PlatformData::Initialize`, on the platform data at
address `a`: `SELF` copies `*current_thread_`, `INVALID` runs
`sigthread_init` on the record. The constructors `PlatformData(kind)`,
`ThreadHandle(kind)` and the method `ThreadHandle::Initialize(kind)` all
reduce to this call. -/
def ThreadHandle.PlatformData.Initialize (kind : Kind) (a : Nat) (s : State) : State :=
  match kind with
  | Kind.SELF => { s with heap := Function.update s.heap a s.current }
  | Kind.INVALID => { s with heap := Function.update s.heap a (sigthread_init (s.heap a)) }

/-- Source: `ThreadHandle::ThreadHandle(Kind kind)`, the new platform data
being placed at address `a`. -/
def ThreadHandle.new (kind : Kind) (a : Nat) (s : State) : State :=
  ThreadHandle.PlatformData.Initialize kind a s

/-- Source: `Thread::Thread() : ThreadHandle(ThreadHandle::INVALID)`. -/
def Thread.new (a : Nat) (s : State) : State :=
  ThreadHandle.new Kind.INVALID a s

/-- Source: `ThreadHandle::IsSelf`. -/
def ThreadHandle.IsSelf (a : Nat) (s : State) : Bool :=
  (s.heap a).st_id == s.current.st_id

/-- Source: `ThreadHandle::IsValid`. -/
def ThreadHandle.IsValid (a : Nat) (s : State) : Bool :=
  (s.heap a).st_id != kNoThread

/-! ## Signal trampoline and `Thread::Start` -/

/-- A transfer of control out of the emulator: `Run t cur` is the call
`thread->Run()` on the `Thread` at address `t`, made while `current_thread_`
is `cur`. -/
inductive Call where
  | Run (t : Nat) (cur : CtxRef)
  deriving DecidableEq, Repr

/-- How control reaches the `setjmp` of the handler: by the delivery of the
signal (the direct call), or by a `longjmp(buf, val)` to the captured point. -/
inductive Pass where
  | signal
  | resumed (val : Int)
  deriving DecidableEq, Repr

/-- `setjmp(current_thread_->st_jmp)`: the direct call fills the buffer and
returns 0; after a `longjmp` with value `val` it returns `val` (1 when `val`
is 0) and writes nothing. -/
def setjmp (p : Pass) (s : State) : Int × State :=
  match p with
  | Pass.signal => (0, s.modifyCurrent fun r => { r with st_jmp := true })
  | Pass.resumed val => (if val = 0 then 1 else val, s)

/-- Source: `ThreadEntry`: `thread->Run(); return NULL;`. -/
def ThreadEntry (arg : Option Nat) (s : State) : Outcome (List Call) :=
  match arg with
  | none => Outcome.fatal Fault.nullCall s
  | some t => Outcome.ok [Call.Run t s.current_thread_] s

/-- Source: `sigthread_trampoline`. The value is the list of calls made
through `st_cb`. -/
def sigthread_trampoline (p : Pass) (s : State) : Outcome (List Call) :=
  let r := setjmp p s
  if r.1 = 0 then
    Outcome.ok [] { r.2 with sigthread_trampoline_complete_ := true }
  else
    match r.2.current.st_cb with
    | Callback.null => Outcome.fatal Fault.nullCall r.2
    | Callback.ThreadEntry => ThreadEntry r.2.current.st_ctx r.2

/-- Results of the system calls made by `Thread::Start`. -/
structure StartEnv where
  sigaction_ret : Int
  malloc_ret : Ptr
  sigaltstack_ret : Int
  deriving DecidableEq, Repr

/-- Source: `Thread::Start`, on the `Thread` whose platform data is at
address `t`. `kill(getpid(), SIGUSR2)` runs the handler before the busy-wait
(the signal is delivered synchronously to the process itself). The outcome is
taken at the point where control has passed to the entry function; its value
is the list of calls made through `st_cb`. -/
def Thread.Start (t : Nat) (env : StartEnv) (s : State) : Outcome (List Call) :=
  if env.sigaction_ret ≠ 0 then Outcome.fatal (Fault.exit 1) s
  else if env.sigaltstack_ret ≠ 0 then Outcome.fatal (Fault.exit 1) s
  else
    let s1 := { s with sigthread_trampoline_complete_ := false }
    let s2 := { s1 with current_thread_ := CtxRef.handle t }
    if s2.next_current_thread_id_ = INT_MAX then Outcome.fatal Fault.signedOverflow s2
    else
      let s3 := { s2.modifyCurrent fun r => { r with st_id := s2.next_current_thread_id_ } with
                  next_current_thread_id_ := s2.next_current_thread_id_ + 1 }
      let s4 := s3.modifyCurrent fun r => { r with st_stack := env.malloc_ret }
      let s5 := s4.modifyCurrent fun r => { r with st_cb := Callback.ThreadEntry }
      let s6 := s5.modifyCurrent fun r => { r with st_ctx := some t }
      match sigthread_trampoline Pass.signal s6 with
      | Outcome.fatal f s7 => Outcome.fatal f s7
      | Outcome.ok calls1 s7 =>
        if s7.sigthread_trampoline_complete_ = false then Outcome.fatal Fault.hang s7
        else if s7.current.st_jmp = false then Outcome.fatal Fault.badJump s7
        else
          match sigthread_trampoline (Pass.resumed 1) s7 with
          | Outcome.fatal f s8 => Outcome.fatal f s8
          | Outcome.ok calls2 s8 => Outcome.ok (calls1 ++ calls2) s8

/-! ## Thread-local slots -/

/-- Source: `Thread::CreateThreadLocalKey`. -/
def Thread.CreateThreadLocalKey (s : State) : Outcome Int :=
  ASSERT (s.next_local_ < kMaxThreadLocals) s fun _ =>
    Outcome.ok s.next_local_ { s with next_local_ := s.next_local_ + 1 }

/-- Source: `Thread::DeleteThreadLocalKey`: the body only logs. -/
def Thread.DeleteThreadLocalKey (_key : Int) (s : State) : Outcome Unit :=
  Outcome.ok () s

/-- Source: `Thread::GetThreadLocal`. -/
def Thread.GetThreadLocal (key : Int) (s : State) : Outcome Ptr :=
  let k := key
  ASSERT (k ≥ 0) s fun h0 =>
  ASSERT (k < kMaxThreadLocals) s fun h1 =>
    Outcome.ok (s.current.st_locals ⟨k.toNat, by omega⟩) s

/-- Source: `Thread::SetThreadLocal`. -/
def Thread.SetThreadLocal (key : Int) (value : Ptr) (s : State) : Outcome Unit :=
  let k := key
  ASSERT (k ≥ 0) s fun h0 =>
  ASSERT (k < kMaxThreadLocals) s fun h1 =>
    Outcome.ok () (s.modifyCurrent fun r =>
      { r with st_locals := Function.update r.st_locals ⟨k.toNat, by omega⟩ value })

/-! ## Sequences of registry operations -/

/-- The operations of the thread API a program can issue, one after another. -/
inductive Op where
  | newHandle (kind : Kind) (a : Nat)
  | start (t : Nat) (env : StartEnv)
  | createKey
  | deleteKey (key : Int)
  | getLocal (key : Int)
  | setLocal (key : Int) (value : Ptr)

/-- What an operation hands back to its caller. -/
inductive Ret where
  | unit
  | key (k : Int)
  | value (p : Ptr)
  | calls (cs : List Call)
  deriving DecidableEq, Repr

/-- Change the value of an outcome, keeping its state or fault. -/
def Outcome.map {α β : Type} (f : α → β) : Outcome α → Outcome β
  | Outcome.ok v s => Outcome.ok (f v) s
  | Outcome.fatal e s => Outcome.fatal e s

/-- One operation, dispatched to the function of the source it names. -/
def Op.exec : Op → State → Outcome Ret
  | Op.newHandle kind a, s => Outcome.ok Ret.unit (ThreadHandle.new kind a s)
  | Op.start t env, s => (Thread.Start t env s).map Ret.calls
  | Op.createKey, s => (Thread.CreateThreadLocalKey s).map Ret.key
  | Op.deleteKey key, s => (Thread.DeleteThreadLocalKey key s).map fun _ => Ret.unit
  | Op.getLocal key, s => (Thread.GetThreadLocal key s).map Ret.value
  | Op.setLocal key value, s => (Thread.SetThreadLocal key value s).map fun _ => Ret.unit

/-- A sequence of operations, in order; the run ends at the first fault. The
value lists what each operation returned. -/
def run : List Op → State → Outcome (List Ret)
  | [], s => Outcome.ok [] s
  | op :: ops, s =>
    match op.exec s with
    | Outcome.fatal f s1 => Outcome.fatal f s1
    | Outcome.ok r s1 => (run ops s1).map fun rs => r :: rs

/-- The keys among the returned values, in the order they were issued. -/
def issuedKeys : List Ret → List Int
  | [] => []
  | Ret.key k :: rs => k :: issuedKeys rs
  | _ :: rs => issuedKeys rs

/-- A sequence of `SetThreadLocal` calls, in order, ending at the first fault. -/
def setLocals : List (Int × Ptr) → State → Outcome Unit
  | [], s => Outcome.ok () s
  | (key, value) :: rest, s =>
    match Thread.SetThreadLocal key value s with
    | Outcome.fatal f s1 => Outcome.fatal f s1
    | Outcome.ok _ s1 => setLocals rest s1

/-- The first `n` calls of `CreateThreadLocalKey` in a row: the keys returned,
or the fault of the first call that fails. -/
def createKeys : Nat → State → Outcome (List Int)
  | 0, s => Outcome.ok [] s
  | n + 1, s =>
    match createKeys n s with
    | Outcome.fatal f s1 => Outcome.fatal f s1
    | Outcome.ok ks s1 => (Thread.CreateThreadLocalKey s1).map fun k => ks ++ [k]

/-! ## Sampler -/

/-- Modelled from the spec: `TickSample`, declared in `platform.h`, which is
not among the sources: "virtual-machine-state tag, program counter, stack
pointer, frame pointer". -/
structure TickSample where
  state : Nat
  pc : Ptr
  sp : Ptr
  fp : Ptr
  deriving DecidableEq, Repr

/-- Modelled from the spec: the default constructor of `TickSample`
(`platform.h`), which builds the stack-local `sample_obj`; the placeholder
value of pc, sp and fp is zero ("identical pc/sp/fp fields (e.g., all
zero)"). -/
def TickSample.new : TickSample :=
  { state := 0, pc := 0, sp := 0, fp := 0 }

/-- Source: the data members of `Sampler::PlatformData` (`sampler_` is the
owning sampler, passed explicitly). -/
structure Sampler.PlatformData where
  task_self_ : Nat
  profiled_thread_ : Nat
  sampler_thread_ : Nat
  deriving DecidableEq, Repr

/-- Modelled from the spec: the data members of `Sampler` (`platform.h`, not
among the sources) that the constructor of the source initialises:
`interval_`, `profiling_`, `active_`, `data_`. -/
structure Sampler where
  interval_ : Int
  profiling_ : Bool
  active_ : Bool
  data_ : Sampler.PlatformData
  deriving DecidableEq, Repr

/-- Modelled from the spec: the inline query `Sampler::IsProfiling`
(`platform.h`), which reads `profiling_`. -/
def Sampler.IsProfiling (sampler : Sampler) : Bool :=
  sampler.profiling_

/-- Modelled from the spec: the inline query `Sampler::IsActive`
(`platform.h`), which reads `active_`. -/
def Sampler.IsActive (sampler : Sampler) : Bool :=
  sampler.active_

/-- Mach `KERN_SUCCESS`. -/
abbrev KERN_SUCCESS : Int := 0

/-- The part of the operating system the sampler acts on: the suspend count
of each thread port, the live worker threads running `SamplerEntry`, and the
ports released with `mach_port_deallocate`. -/
structure Kernel where
  suspend_count : Nat → Nat
  workers : List Nat
  deallocated : List (Nat × Nat)

/-- What a tick of the worker does that is visible outside it, in order. -/
inductive SEvent where
  | thread_suspend (port : Nat)
  | thread_get_state (port : Nat)
  | SampleStack (sample : TickSample)
  | thread_resume (port : Nat)
  | Tick (sample : TickSample)
  | Sleep (milliseconds : Int)
  deriving DecidableEq, Repr

/-- What one iteration of the worker loop reads from outside: the object
returned by `CpuProfiler::TickSampleEvent()` (`none` for NULL, otherwise the
content of the object supplied), `VMState::current_state()`, the return
codes of `thread_suspend` and `thread_get_state`, and the registers of the
target. -/
structure TickEnv where
  hook : Option TickSample
  current_state : Nat
  suspend_ret : Int
  get_state_ret : Int
  ip : Ptr
  sp : Ptr
  bp : Ptr
  deriving DecidableEq, Repr

/-- Mach `thread_suspend` returning `ret`: on success the suspend count of
the thread goes up by one. -/
def Kernel.thread_suspend (k : Kernel) (port : Nat) (ret : Int) : Kernel :=
  if ret = KERN_SUCCESS then
    { k with suspend_count := Function.update k.suspend_count port (k.suspend_count port + 1) }
  else k

/-- Mach `thread_resume`: the suspend count of the thread goes down by one
(it fails, changing nothing, on a thread that is not suspended). -/
def Kernel.thread_resume (k : Kernel) (port : Nat) : Kernel :=
  if k.suspend_count port = 0 then k
  else { k with suspend_count := Function.update k.suspend_count port (k.suspend_count port - 1) }

/-- Source: the body of the `for` loop of `Sampler::PlatformData::Runner`.
`SampleStack` and `Tick` are callbacks of the owning sampler; each is
recorded with the content of the sample at the time of the call. -/
def Sampler.PlatformData.tick (sampler : Sampler) (env : TickEnv) (k : Kernel) :
    Kernel × List SEvent :=
  let sample_obj := TickSample.new
  let sample := match env.hook with
    | some supplied => supplied
    | none => sample_obj
  let sample := { sample with state := env.current_state }
  let port := sampler.data_.profiled_thread_
  if sampler.IsProfiling = true then
    if KERN_SUCCESS = env.suspend_ret then
      let k1 := k.thread_suspend port env.suspend_ret
      if env.get_state_ret = KERN_SUCCESS then
        let sample := { sample with pc := env.ip, sp := env.sp, fp := env.bp }
        (k1.thread_resume port,
          [SEvent.thread_suspend port, SEvent.thread_get_state port,
           SEvent.SampleStack sample, SEvent.thread_resume port, SEvent.Tick sample])
      else
        (k1.thread_resume port,
          [SEvent.thread_suspend port, SEvent.thread_get_state port,
           SEvent.thread_resume port, SEvent.Tick sample])
    else
      (k.thread_suspend port env.suspend_ret, [SEvent.thread_suspend port, SEvent.Tick sample])
  else
    (k, [SEvent.Tick sample])

/-- Source: `Sampler::PlatformData::Runner`. The flag `active_` is written by
another thread; each iteration is given the value `IsActive()` reads at the
loop test together with what the body reads. The loop ends at the first
`false` reading (or when the readings given are used up). -/
def Sampler.PlatformData.Runner (sampler : Sampler) :
    List (Bool × TickEnv) → Kernel → Kernel × List SEvent
  | [], k => (k, [])
  | (active, env) :: rest, k =>
    if ({ sampler with active_ := active }).IsActive = true then
      let r := Sampler.PlatformData.tick sampler env k
      let r2 := Sampler.PlatformData.Runner sampler rest r.1
      (r2.1, r.2 ++ SEvent.Sleep sampler.interval_ :: r2.2)
    else (k, [])

/-- Source: `Sampler::Sampler(int interval, bool profiling)` with the
constructor of its platform data; `task_self` is what `mach_task_self()`
returns. -/
def Sampler.new (interval : Int) (profiling : Bool) (task_self : Nat) : Sampler :=
  { interval_ := interval
    profiling_ := profiling
    active_ := false
    data_ := { task_self_ := task_self, profiled_thread_ := 0, sampler_thread_ := 0 } }

/-- What `Sampler::Start` gets from the system: the port returned by
`mach_thread_self()`, and the thread `pthread_create` starts and writes into
`sampler_thread_` (`none` when the creation fails). -/
structure SamplerEnv where
  mach_thread_self : Nat
  pthread_create : Option Nat
  deriving DecidableEq, Repr

/-- Source: `Sampler::Start`. The function has no test of `active_`. -/
def Sampler.Start (sampler : Sampler) (env : SamplerEnv) (k : Kernel) : Sampler × Kernel :=
  let s1 :=
    if sampler.IsProfiling = true then
      { sampler with data_ := { sampler.data_ with profiled_thread_ := env.mach_thread_self } }
    else sampler
  let s2 := { s1 with active_ := true }
  match env.pthread_create with
  | some tid =>
    ({ s2 with data_ := { s2.data_ with sampler_thread_ := tid } },
      { k with workers := k.workers ++ [tid] })
  | none => (s2, k)

/-- Source: `Sampler::Stop`. `pthread_join` returns once the thread named by
`sampler_thread_` has ended (at once, with an error, when no such worker
exists); the function has no test of `active_`. -/
def Sampler.Stop (sampler : Sampler) (k : Kernel) : Sampler × Kernel :=
  let s1 := { sampler with active_ := false }
  let k1 := { k with workers := k.workers.erase s1.data_.sampler_thread_ }
  if s1.IsProfiling = true then
    (s1, { k1 with deallocated :=
             k1.deallocated ++ [(s1.data_.task_self_, s1.data_.profiled_thread_)] })
  else (s1, k1)

/-- The event is a call of `thread_resume`. -/
def SEvent.isResume : SEvent → Bool
  | SEvent.thread_resume _ => true
  | _ => false

/-- The event is a call of `thread_suspend`. -/
def SEvent.isSuspend : SEvent → Bool
  | SEvent.thread_suspend _ => true
  | _ => false

/-- The event is a call of one of the sampler's callbacks, `SampleStack` or
`Tick`. -/
def SEvent.isCallback : SEvent → Bool
  | SEvent.SampleStack _ => true
  | SEvent.Tick _ => true
  | _ => false

/-- A kernel in which no thread is suspended and no worker runs. -/
def Kernel.idle : Kernel :=
  { suspend_count := fun _ => 0, workers := [], deallocated := [] }

/-! ## Starts in a sequence of operations -/

/-- The operation is a `Thread::Start`. -/
def Op.isStart : Op → Bool
  | Op.start _ _ => true
  | _ => false

/-- The operation acts on the handle at address `a` as a whole: it constructs
or re-initialises it, or starts it. -/
def Op.touches (a : Nat) : Op → Bool
  | Op.newHandle _ b => b == a
  | Op.start t _ => t == a
  | _ => false

/-- The identifiers given to the started contexts in a sequence of
operations, in the order of the starts: after each `Thread::Start` that hands
over control, the `st_id` of the record it started. The sequence is followed
up to its first fault. -/
def assignedIds : List Op → State → List Int
  | [], _ => []
  | op :: ops, s =>
    match op.exec s with
    | Outcome.fatal _ _ => []
    | Outcome.ok _ s1 =>
      match op with
      | Op.start t _ => (s1.heap t).st_id :: assignedIds ops s1
      | _ => assignedIds ops s1

/-! ## Process start over an arbitrary store -/

/-- The statics as initialised at process start, with the memory in which
handles will be placed holding the records `heap`, whatever they are. -/
def State.startup (heap : Nat → sigthread_t) : State :=
  { State.initial with heap := heap }

/-- A record holding leftover content: the identifier 5, a captured resume
point, the value 9 in every slot. -/
def staleRecord : sigthread_t :=
  { st_id := 5
    st_jmp := true
    st_stack := 4096
    st_cb := Callback.ThreadEntry
    st_ctx := some 3
    st_locals := fun _ => 9 }

/-! ## Invariant of the identifier counter -/

/-- Every identifier stored in a record lies below the next identifier to be
handed out, and the counter has not gone below zero. -/
def IdsBelowNext (s : State) : Prop :=
  -1 < s.next_current_thread_id_ ∧
  s.main_thread_.st_id < s.next_current_thread_id_ ∧
  ∀ a, (s.heap a).st_id < s.next_current_thread_id_

/-! ## Basic facts about the store -/

theorem State.store_current_thread_ (s : State) (r : CtxRef) (v : sigthread_t) :
    (s.store r v).current_thread_ = s.current_thread_ := by
  cases r <;> rfl

theorem State.store_next_local_ (s : State) (r : CtxRef) (v : sigthread_t) :
    (s.store r v).next_local_ = s.next_local_ := by
  cases r <;> rfl

theorem State.store_next_id (s : State) (r : CtxRef) (v : sigthread_t) :
    (s.store r v).next_current_thread_id_ = s.next_current_thread_id_ := by
  cases r <;> rfl

theorem State.deref_store_same (s : State) (r : CtxRef) (v : sigthread_t) :
    (s.store r v).deref r = v := by
  cases r <;> simp [State.store, State.deref]

theorem State.deref_store_ne (s : State) (r r' : CtxRef) (v : sigthread_t) (h : r' ≠ r) :
    (s.store r v).deref r' = s.deref r' := by
  cases r <;> cases r' <;> simp_all [State.store, State.deref, Function.update]

theorem State.current_modifyCurrent (s : State) (f : sigthread_t → sigthread_t) :
    (s.modifyCurrent f).current = f s.current := by
  simp [State.modifyCurrent, State.current, State.store_current_thread_, State.deref_store_same]

theorem State.modifyCurrent_current_thread_ (s : State) (f : sigthread_t → sigthread_t) :
    (s.modifyCurrent f).current_thread_ = s.current_thread_ := by
  simp [State.modifyCurrent, State.store_current_thread_]

theorem State.deref_modifyCurrent_ne (s : State) (f : sigthread_t → sigthread_t) (r : CtxRef)
    (h : r ≠ s.current_thread_) : (s.modifyCurrent f).deref r = s.deref r := by
  simp [State.modifyCurrent, State.deref_store_ne _ _ _ _ h]

theorem SetThreadLocal_ok (s : State) (k : Int) (v : Ptr) (h0 : 0 ≤ k) (h1 : k < 16) :
    Thread.SetThreadLocal k v s = Outcome.ok () (s.modifyCurrent fun r =>
      { r with st_locals := Function.update r.st_locals (⟨k.toNat, by omega⟩ : Fin 16) v }) := by
  simp [Thread.SetThreadLocal, ASSERT, h0, h1]

theorem GetThreadLocal_ok (s : State) (k : Int) (h0 : 0 ≤ k) (h1 : k < 16) :
    Thread.GetThreadLocal k s = Outcome.ok (s.current.st_locals (⟨k.toNat, by omega⟩ : Fin 16)) s := by
  simp [Thread.GetThreadLocal, ASSERT, h0, h1]

/-! ## Thread-local slots: read after write -/

theorem SetThreadLocal_then_get (s : State) (k : Int) (v : Ptr) (h0 : 0 ≤ k) (h1 : k < 16) :
    ∃ s1, Thread.SetThreadLocal k v s = Outcome.ok () s1 ∧
      s1.current_thread_ = s.current_thread_ ∧
      Thread.GetThreadLocal k s1 = Outcome.ok v s1 := by
  refine ⟨_, SetThreadLocal_ok s k v h0 h1, State.modifyCurrent_current_thread_ _ _, ?_⟩
  rw [GetThreadLocal_ok _ k h0 h1, State.current_modifyCurrent]
  simp

/-- C1: for every key `k` with `0 <= k < 16`, every value `v` and every
registry state, `SetThreadLocal(k, v)` succeeds and leaves the active context
in place, and `GetThreadLocal(k)` called next returns `v`. -/
theorem C1_get_after_set (s : State) (k : Int) (v : Ptr) (h0 : 0 ≤ k) (h1 : k < 16) :
    ∃ s1, Thread.SetThreadLocal k v s = Outcome.ok () s1 ∧
      s1.current_thread_ = s.current_thread_ ∧
      Thread.GetThreadLocal k s1 = Outcome.ok v s1 := by
  refine ⟨_, SetThreadLocal_ok s k v h0 h1, ?_, ?_⟩
  · exact State.modifyCurrent_current_thread_ s _
  · rw [GetThreadLocal_ok _ k h0 h1]
    congr 1
    rw [State.current_modifyCurrent]
    exact Function.update_same _ _ _

/-- C1 at key 3 and value 42 in the initial state. -/
theorem C1_get_after_set_witness :
    ∃ s1, Thread.SetThreadLocal 3 42 State.initial = Outcome.ok () s1 ∧
      s1.current_thread_ = State.initial.current_thread_ ∧
      Thread.GetThreadLocal 3 s1 = Outcome.ok 42 s1 :=
  C1_get_after_set State.initial 3 42 (by decide) (by decide)

/-! ## `Thread::Start` when nothing fails -/

/-- The state in which the entry function of the `Thread` at `t` starts to
run, and the single call made, when both system calls succeed and the
identifier counter has room. -/
theorem Thread.Start_ok (t : Nat) (env : StartEnv) (s : State)
    (hsig : env.sigaction_ret = 0) (halt : env.sigaltstack_ret = 0)
    (hid : s.next_current_thread_id_ ≠ INT_MAX) :
    Thread.Start t env s = Outcome.ok [Call.Run t (CtxRef.handle t)]
      { main_thread_ := s.main_thread_
        next_current_thread_id_ := s.next_current_thread_id_ + 1
        current_thread_ := CtxRef.handle t
        sigthread_trampoline_complete_ := true
        next_local_ := s.next_local_
        heap := Function.update s.heap t
          { st_id := s.next_current_thread_id_
            st_jmp := true
            st_stack := env.malloc_ret
            st_cb := Callback.ThreadEntry
            st_ctx := some t
            st_locals := (s.heap t).st_locals } } := by
  simp [Thread.Start, hsig, halt, hid, sigthread_trampoline, setjmp, State.modifyCurrent,
    State.store, State.current, State.deref, ThreadEntry]

/-! ## Thread-local slots are per context -/

theorem SetThreadLocal_cases (key : Int) (value : Ptr) (s : State) :
    Thread.SetThreadLocal key value s = Outcome.fatal Fault.assertion s ∨
    ∃ i : Fin 16, (i.val : Int) = key ∧
      Thread.SetThreadLocal key value s = Outcome.ok () (s.modifyCurrent fun r =>
        { r with st_locals := Function.update r.st_locals i value }) := by
  by_cases h0 : 0 ≤ key
  · by_cases h1 : key < 16
    · right
      exact ⟨⟨key.toNat, by omega⟩, by simp; omega, SetThreadLocal_ok s key value h0 h1⟩
    · left
      simp [Thread.SetThreadLocal, ASSERT, h0, h1]
  · left
    simp [Thread.SetThreadLocal, ASSERT, h0]

/-- A sequence of `SetThreadLocal` calls keeps the active context, changes no
record but the active one, and in the active one changes no slot whose key is
not among those set. -/
theorem setLocals_frame (sets : List (Int × Ptr)) (s : State) :
    (setLocals sets s).state.current_thread_ = s.current_thread_ ∧
    (∀ r, r ≠ s.current_thread_ → (setLocals sets s).state.deref r = s.deref r) ∧
    (∀ i : Fin 16, (∀ p ∈ sets, p.1 ≠ (i.val : Int)) →
      (setLocals sets s).state.current.st_locals i = s.current.st_locals i) := by
  induction sets generalizing s with
  | nil => simp [setLocals, Outcome.state]
  | cons p rest ih =>
    obtain ⟨key, value⟩ := p
    rcases SetThreadLocal_cases key value s with h | ⟨j, hj, h⟩
    · simp [setLocals, h, Outcome.state]
    · simp only [setLocals, h]
      obtain ⟨ih1, ih2, ih3⟩ := ih (s.modifyCurrent fun r =>
        { r with st_locals := Function.update r.st_locals j value })
      rw [State.modifyCurrent_current_thread_] at ih1 ih2
      refine ⟨ih1, ?_, ?_⟩
      · intro r hr
        rw [ih2 r hr, State.deref_modifyCurrent_ne _ _ _ hr]
      · intro i hi
        have hij : i ≠ j := by
          intro hEq
          have := hi (key, value) (List.mem_cons_self _ _)
          apply this
          simp [← hj, hEq]
        rw [ih3 i (fun q hq => hi q (List.mem_cons_of_mem _ hq)), State.current_modifyCurrent]
        simp [Function.update, hij]

theorem Thread.new_next_id (b : Nat) (s : State) :
    (Thread.new b s).next_current_thread_id_ = s.next_current_thread_id_ := rfl

theorem Thread.new_heap_self (b : Nat) (s : State) :
    (Thread.new b s).heap b = sigthread_init (s.heap b) := by
  simp [Thread.new, ThreadHandle.new, ThreadHandle.PlatformData.Initialize]

theorem Thread.new_deref_ne (b : Nat) (s : State) (r : CtxRef) (h : r ≠ CtxRef.handle b) :
    (Thread.new b s).deref r = s.deref r := by
  cases r with
  | main => rfl
  | handle a =>
    have hab : a ≠ b := fun hEq => h (by rw [hEq])
    simp [Thread.new, ThreadHandle.new, ThreadHandle.PlatformData.Initialize, State.deref,
      Function.update, hab]

/-- What a successful `Thread::Start` changes and what it leaves alone. -/
theorem Thread.Start_frame (t : Nat) (env : StartEnv) (s : State)
    (hsig : env.sigaction_ret = 0) (halt : env.sigaltstack_ret = 0)
    (hid : s.next_current_thread_id_ ≠ INT_MAX) :
    ∃ s1, Thread.Start t env s = Outcome.ok [Call.Run t (CtxRef.handle t)] s1 ∧
      s1.current_thread_ = CtxRef.handle t ∧
      s1.current.st_id = s.next_current_thread_id_ ∧
      s1.current.st_locals = (s.heap t).st_locals ∧
      s1.next_current_thread_id_ = s.next_current_thread_id_ + 1 ∧
      s1.next_local_ = s.next_local_ ∧
      ∀ r, r ≠ CtxRef.handle t → s1.deref r = s.deref r := by
  refine ⟨_, Thread.Start_ok t env s hsig halt hid, rfl, ?_, ?_, rfl, rfl, ?_⟩
  · simp [State.current, State.deref]
  · simp [State.current, State.deref]
  · intro r hr
    cases r with
    | main => rfl
    | handle a =>
      have hab : a ≠ t := fun hEq => hr (by rw [hEq])
      simp [State.deref, Function.update, hab]

/-- C2: a value `v` (non-null) is stored under key `k` of `[0,16)` while
context A is active; a newly constructed `Thread` B (at an address `b` that is
not A's) is then started. With B active, `GetThreadLocal(k)` returns null,
not `v`, and keeps doing so while B sets other keys only; whatever B sets
afterwards, the record of A is as `SetThreadLocal(k, v)` left it, with `v`
in slot `k`. -/
theorem C2_locals_per_context (s : State) (k : Int) (v : Ptr) (b : Nat) (env : StartEnv)
    (h0 : 0 ≤ k) (h1 : k < 16) (hv : v ≠ 0)
    (hfresh : s.current_thread_ ≠ CtxRef.handle b)
    (hsig : env.sigaction_ret = 0) (halt : env.sigaltstack_ret = 0)
    (hid : s.next_current_thread_id_ ≠ INT_MAX) :
    ∃ s1 s3 calls,
      Thread.SetThreadLocal k v s = Outcome.ok () s1 ∧
      Thread.Start b env (Thread.new b s1) = Outcome.ok calls s3 ∧
      s3.current_thread_ = CtxRef.handle b ∧
      Thread.GetThreadLocal k s3 = Outcome.ok 0 s3 ∧
      (0 : Ptr) ≠ v ∧
      (s1.deref s.current_thread_).st_locals (⟨k.toNat, by omega⟩ : Fin 16) = v ∧
      ∀ sets : List (Int × Ptr),
        (setLocals sets s3).state.deref s.current_thread_ = s1.deref s.current_thread_ ∧
        ((∀ p ∈ sets, p.1 ≠ k) →
          Thread.GetThreadLocal k (setLocals sets s3).state =
            Outcome.ok 0 (setLocals sets s3).state) := by
  obtain ⟨s1, hset, hcur1, hget1⟩ := SetThreadLocal_then_get s k v h0 h1
  have hnext1 : s1.next_current_thread_id_ = s.next_current_thread_id_ := by
    rw [SetThreadLocal_ok s k v h0 h1] at hset
    injection hset with _ hs
    rw [← hs, State.modifyCurrent, State.store_next_id]
  have hid2 : (Thread.new b s1).next_current_thread_id_ ≠ INT_MAX := by
    rw [Thread.new_next_id, hnext1]
    exact hid
  obtain ⟨s3, hstart, hcur3, _, hloc3, _, _, hframe3⟩ :=
    Thread.Start_frame b env (Thread.new b s1) hsig halt hid2
  have hzero : ∀ i : Fin 16, s3.current.st_locals i = 0 := by
    intro i
    rw [hloc3, Thread.new_heap_self]
    rfl
  have hslot : (s1.deref s.current_thread_).st_locals (⟨k.toNat, by omega⟩ : Fin 16) = v := by
    rw [GetThreadLocal_ok s1 k h0 h1] at hget1
    injection hget1 with hval _
    rw [← hcur1]
    exact hval
  refine ⟨s1, s3, _, hset, hstart, hcur3, ?_, fun h => hv h.symm, hslot, ?_⟩
  · rw [GetThreadLocal_ok _ k h0 h1, hzero]
  · intro sets
    obtain ⟨_, f2, f3⟩ := setLocals_frame sets s3
    have hA : s.current_thread_ ≠ s3.current_thread_ := by
      rw [hcur3]
      exact hfresh
    constructor
    · rw [f2 _ hA, hframe3 _ hfresh, Thread.new_deref_ne _ _ _ hfresh]
    · intro hk
      rw [GetThreadLocal_ok _ k h0 h1]
      have hk2 : ∀ p ∈ sets, p.1 ≠ (((⟨k.toNat, by omega⟩ : Fin 16)).val : Int) := by
        intro p hp
        simp only [Int.toNat_of_nonneg h0]
        exact hk p hp
      rw [f3 _ hk2, hzero]

/-- C2 with main as context A: key 3 gets value 42 on the main context, then a
`Thread` constructed at address 0 is started. -/
theorem C2_locals_per_context_witness :
    ∃ s1 s3 calls,
      Thread.SetThreadLocal 3 42 State.initial = Outcome.ok () s1 ∧
      Thread.Start 0 ⟨0, 4096, 0⟩ (Thread.new 0 s1) = Outcome.ok calls s3 ∧
      s3.current_thread_ = CtxRef.handle 0 ∧
      Thread.GetThreadLocal 3 s3 = Outcome.ok 0 s3 ∧
      (0 : Ptr) ≠ 42 ∧
      (s1.deref State.initial.current_thread_).st_locals (3 : Fin 16) = 42 ∧
      ∀ sets : List (Int × Ptr),
        (setLocals sets s3).state.deref State.initial.current_thread_ =
          s1.deref State.initial.current_thread_ ∧
        ((∀ p ∈ sets, p.1 ≠ 3) →
          Thread.GetThreadLocal 3 (setLocals sets s3).state =
            Outcome.ok 0 (setLocals sets s3).state) :=
  C2_locals_per_context State.initial 3 42 0 ⟨0, 4096, 0⟩ (by decide) (by decide) (by decide)
    (by decide) rfl rfl (by decide)

/-! ## The slot budget -/

theorem CreateThreadLocalKey_ok (s : State) (h : s.next_local_ < 16) :
    Thread.CreateThreadLocalKey s =
      Outcome.ok s.next_local_ { s with next_local_ := s.next_local_ + 1 } := by
  simp [Thread.CreateThreadLocalKey, ASSERT, h]

theorem CreateThreadLocalKey_full (s : State) (h : ¬ s.next_local_ < 16) :
    Thread.CreateThreadLocalKey s = Outcome.fatal Fault.assertion s := by
  simp [Thread.CreateThreadLocalKey, ASSERT, h]

/-- C3: from the initial state, `n` calls of `CreateThreadLocalKey` in a row
return the keys `0, 1, ..., n-1` in this order when `n <= 16` (the `n`-th call
returns `n-1`, the next unused index) and leave the counter at `n`; when
`n > 16` the run ends in a failed assertion with the counter at 16: the 17th
call returns no key. -/
theorem C3_create_key_budget (n : Nat) :
    createKeys n State.initial =
      if n ≤ 16 then
        Outcome.ok ((List.range n).map Int.ofNat) { State.initial with next_local_ := n }
      else
        Outcome.fatal Fault.assertion { State.initial with next_local_ := 16 } := by
  induction n with
  | zero => simp [createKeys, State.initial]
  | succ n ih =>
    rw [createKeys, ih]
    by_cases h : n + 1 ≤ 16
    · have hn : n ≤ 16 := by omega
      have hlt : ({ State.initial with next_local_ := (n : Int) } : State).next_local_ < 16 := by
        show (n : Int) < 16
        omega
      simp only [hn, h, if_true, CreateThreadLocalKey_ok _ hlt, Outcome.map, List.range_succ,
        List.map_append, List.map_cons, List.map_nil]
      simp
    · by_cases h16 : n = 16
      · subst h16
        have hfull : ¬ ({ State.initial with next_local_ := ((16 : Nat) : Int) } :
            State).next_local_ < 16 := by
          show ¬ (((16 : Nat) : Int) < 16)
          omega
        simp only [le_refl, if_true, CreateThreadLocalKey_full _ hfull, Outcome.map]
        simp
      · have hn : ¬ n ≤ 16 := by omega
        simp [hn, h]

/-! ## Identity of the active context -/

theorem Outcome.ok_of_fault_none {α : Type} (o : Outcome α) (h : o.fault = none) :
    ∃ v, o = Outcome.ok v o.state := by
  cases o with
  | ok v s => exact ⟨v, rfl⟩
  | fatal f s => simp [Outcome.fault] at h

theorem IdsBelowNext_initial : IdsBelowNext State.initial := by
  simp [IdsBelowNext, State.initial, sigthread_empty, sigthread_init]

theorem IdsBelowNext.current {s : State} (h : IdsBelowNext s) :
    s.current.st_id < s.next_current_thread_id_ := by
  unfold State.current State.deref
  cases s.current_thread_ with
  | main => exact h.2.1
  | handle a => exact h.2.2 a

theorem IdsBelowNext.modifyCurrent {s : State} (h : IdsBelowNext s)
    (f : sigthread_t → sigthread_t) (hf : ∀ r, (f r).st_id = r.st_id) :
    IdsBelowNext (s.modifyCurrent f) := by
  have hc := h.current
  obtain ⟨h1, h2, h3⟩ := h
  unfold State.modifyCurrent State.store
  unfold State.current State.deref at *
  cases hcur : s.current_thread_ with
  | main =>
    refine ⟨h1, ?_, h3⟩
    show (f s.main_thread_).st_id < s.next_current_thread_id_
    rw [hf]
    exact h2
  | handle a =>
    rw [hcur] at hc
    refine ⟨h1, h2, fun b => ?_⟩
    by_cases hb : b = a
    · subst hb
      simpa [hf] using hc
    · simpa [Function.update, hb] using h3 b

theorem IdsBelowNext.start {s : State} (h : IdsBelowNext s) (t : Nat) (env : StartEnv)
    (calls : List Call) (s1 : State) (hs : Thread.Start t env s = Outcome.ok calls s1) :
    IdsBelowNext s1 ∧ s1.current_thread_ = CtxRef.handle t ∧
      (s1.heap t).st_id = s.next_current_thread_id_ ∧
      ∀ a, a ≠ t → (s1.heap a).st_id < s.next_current_thread_id_ := by
  by_cases hsig : env.sigaction_ret = 0
  · by_cases halt : env.sigaltstack_ret = 0
    · by_cases hid : s.next_current_thread_id_ = INT_MAX
      · simp [Thread.Start, hsig, halt, hid] at hs
      · rw [Thread.Start_ok t env s hsig halt hid] at hs
        injection hs with _ hs
        subst hs
        obtain ⟨h1, h2, h3⟩ := h
        refine ⟨⟨?_, ?_, fun a => ?_⟩, rfl, by simp, fun a ha => ?_⟩
        · show -1 < s.next_current_thread_id_ + 1
          omega
        · show s.main_thread_.st_id < s.next_current_thread_id_ + 1
          omega
        · show (Function.update s.heap t _ a).st_id < s.next_current_thread_id_ + 1
          by_cases hat : a = t
          · subst hat
            simp
          · have := h3 a
            simp only [Function.update, hat, dite_false]
            omega
        · simpa [Function.update, ha] using h3 a
    · simp [Thread.Start, hsig, halt] at hs
  · simp [Thread.Start, hsig] at hs

theorem IdsBelowNext.exec {s : State} (h : IdsBelowNext s) (op : Op) (r : Ret) (s1 : State)
    (hs : op.exec s = Outcome.ok r s1) : IdsBelowNext s1 := by
  cases op with
  | newHandle kind a =>
    simp only [Op.exec, Outcome.ok.injEq] at hs
    obtain ⟨_, hs⟩ := hs
    subst hs
    have hc := h.current
    obtain ⟨h1, h2, h3⟩ := h
    cases kind with
    | SELF =>
      refine ⟨h1, h2, fun b => ?_⟩
      show (Function.update s.heap a s.current b).st_id < s.next_current_thread_id_
      by_cases hb : b = a
      · subst hb
        simpa using hc
      · simpa [Function.update, hb] using h3 b
    | INVALID =>
      refine ⟨h1, h2, fun b => ?_⟩
      show (Function.update s.heap a (sigthread_init (s.heap a)) b).st_id <
        s.next_current_thread_id_
      by_cases hb : b = a
      · subst hb
        simpa [sigthread_init] using h1
      · simpa [Function.update, hb] using h3 b
  | start t env =>
    simp only [Op.exec] at hs
    cases hst : Thread.Start t env s with
    | fatal f s2 => simp [hst, Outcome.map] at hs
    | ok calls s2 =>
      simp only [hst, Outcome.map, Outcome.ok.injEq] at hs
      obtain ⟨_, hs⟩ := hs
      subst hs
      exact (h.start t env calls s2 hst).1
  | createKey =>
    simp only [Op.exec] at hs
    by_cases hlt : s.next_local_ < 16
    · simp only [CreateThreadLocalKey_ok s hlt, Outcome.map, Outcome.ok.injEq] at hs
      obtain ⟨_, hs⟩ := hs
      subst hs
      exact h
    · simp [CreateThreadLocalKey_full s hlt, Outcome.map] at hs
  | deleteKey key =>
    simp only [Op.exec, Thread.DeleteThreadLocalKey, Outcome.map, Outcome.ok.injEq] at hs
    obtain ⟨_, hs⟩ := hs
    subst hs
    exact h
  | getLocal key =>
    simp only [Op.exec] at hs
    by_cases h0 : 0 ≤ key
    · by_cases h1 : key < 16
      · simp only [GetThreadLocal_ok s key h0 h1, Outcome.map, Outcome.ok.injEq] at hs
        obtain ⟨_, hs⟩ := hs
        subst hs
        exact h
      · simp [Thread.GetThreadLocal, ASSERT, h0, h1, Outcome.map] at hs
    · simp [Thread.GetThreadLocal, ASSERT, h0, Outcome.map] at hs
  | setLocal key value =>
    simp only [Op.exec] at hs
    rcases SetThreadLocal_cases key value s with hc | ⟨i, _, hc⟩
    · simp [hc, Outcome.map] at hs
    · simp only [hc, Outcome.map, Outcome.ok.injEq] at hs
      obtain ⟨_, hs⟩ := hs
      subst hs
      exact h.modifyCurrent _ (fun _ => rfl)

theorem IdsBelowNext.run {s : State} (h : IdsBelowNext s) (ops : List Op) (rets : List Ret)
    (s1 : State) (hs : run ops s = Outcome.ok rets s1) : IdsBelowNext s1 := by
  induction ops generalizing s rets with
  | nil =>
    simp only [Sigstack.run, Outcome.ok.injEq] at hs
    obtain ⟨_, hs⟩ := hs
    subst hs
    exact h
  | cons op ops ih =>
    simp only [Sigstack.run] at hs
    cases hop : op.exec s with
    | fatal f s2 => simp [hop] at hs
    | ok r s2 =>
      simp only [hop] at hs
      cases hrest : Sigstack.run ops s2 with
      | fatal f s3 => simp [hrest, Outcome.map] at hs
      | ok rs s3 =>
        simp only [hrest, Outcome.map, Outcome.ok.injEq] at hs
        obtain ⟨_, hs⟩ := hs
        subst hs
        exact ih (h.exec op r s2 hop) rs hrest

/-- C4: after any sequence of operations of the thread API from the initial
state (handles captured or reset, threads started, slots used) that ran
without fault, a `Thread::Start` that hands control to the `Thread` at `t`
leaves `t` the active context with `IsSelf()` true for it, and `IsSelf()`
false for every other handle: those captured with kind `SELF` on the main
context and every `Thread` started earlier among them. -/
theorem C4_is_self_after_start (ops : List Op) (t : Nat) (env : StartEnv)
    (hrun : (run ops State.initial).fault = none)
    (hstart : (Thread.Start t env (run ops State.initial).state).fault = none) :
    (Thread.Start t env (run ops State.initial).state).state.current_thread_ = CtxRef.handle t ∧
    ThreadHandle.IsSelf t (Thread.Start t env (run ops State.initial).state).state = true ∧
    ∀ h, h ≠ t →
      ThreadHandle.IsSelf h (Thread.Start t env (run ops State.initial).state).state = false := by
  obtain ⟨rets, hr⟩ := Outcome.ok_of_fault_none _ hrun
  obtain ⟨calls, hs⟩ := Outcome.ok_of_fault_none _ hstart
  have hinv := IdsBelowNext_initial.run ops rets _ hr
  obtain ⟨_, hcur, hid, hothers⟩ := hinv.start t env calls _ hs
  refine ⟨hcur, ?_, fun h hne => ?_⟩
  · simp [ThreadHandle.IsSelf, State.current, State.deref, hcur]
  · have := hothers h hne
    simp only [ThreadHandle.IsSelf, State.current, State.deref, hcur, hid, beq_eq_false_iff_ne]
    omega

/-- C4 on a run that captures the main context at address 0, starts the
`Thread` at 1 and constructs the `Thread` at 2, which is then started. -/
theorem C4_is_self_after_start_witness :
    (Thread.Start 2 ⟨0, 4096, 0⟩ (run [Op.newHandle Kind.SELF 0, Op.newHandle Kind.INVALID 1,
      Op.start 1 ⟨0, 8192, 0⟩, Op.newHandle Kind.INVALID 2]
      State.initial).state).state.current_thread_ = CtxRef.handle 2 ∧
    ThreadHandle.IsSelf 2 (Thread.Start 2 ⟨0, 4096, 0⟩ (run [Op.newHandle Kind.SELF 0,
      Op.newHandle Kind.INVALID 1, Op.start 1 ⟨0, 8192, 0⟩, Op.newHandle Kind.INVALID 2]
      State.initial).state).state = true ∧
    ∀ h, h ≠ 2 →
      ThreadHandle.IsSelf h (Thread.Start 2 ⟨0, 4096, 0⟩ (run [Op.newHandle Kind.SELF 0,
        Op.newHandle Kind.INVALID 1, Op.start 1 ⟨0, 8192, 0⟩, Op.newHandle Kind.INVALID 2]
        State.initial).state).state = false :=
  C4_is_self_after_start [Op.newHandle Kind.SELF 0, Op.newHandle Kind.INVALID 1,
    Op.start 1 ⟨0, 8192, 0⟩, Op.newHandle Kind.INVALID 2] 2 ⟨0, 4096, 0⟩ (by decide) (by decide)

/-! ## The trampoline runs the entry function once -/

/-- C5: when the two system calls succeed and the identifier counter has
room, `Thread::Start` on the `Thread` at `t` makes exactly one call through
`st_cb`, namely `ThreadEntry(t)`, that is `Run()` on `t`, made while `t` is
the current context, where the record holds `ThreadEntry` and `t` as entry
and argument and the completion flag is set. The two passes through the
handler are: on signal delivery (`setjmp` returns 0) the resume point is
captured, the completion flag is set and no call is made; on re-entry by
`longjmp` (`setjmp` returns a non-zero value) the stored entry is called once
on the stored argument and the state, the completion flag included, is left
as it was. -/
theorem C5_start_runs_entry_once (t : Nat) (env : StartEnv) (s : State)
    (hsig : env.sigaction_ret = 0) (halt : env.sigaltstack_ret = 0)
    (hid : s.next_current_thread_id_ ≠ INT_MAX) :
    (∃ s1, Thread.Start t env s = Outcome.ok [Call.Run t (CtxRef.handle t)] s1 ∧
      s1.current_thread_ = CtxRef.handle t ∧
      s1.current.st_cb = Callback.ThreadEntry ∧
      s1.current.st_ctx = some t ∧
      s1.sigthread_trampoline_complete_ = true) ∧
    (∀ s0 : State, sigthread_trampoline Pass.signal s0 =
      Outcome.ok [] { (s0.modifyCurrent fun r => { r with st_jmp := true }) with
        sigthread_trampoline_complete_ := true }) ∧
    (∀ (s0 : State) (val : Int) (u : Nat), val ≠ 0 →
      s0.current.st_cb = Callback.ThreadEntry → s0.current.st_ctx = some u →
      sigthread_trampoline (Pass.resumed val) s0 =
        Outcome.ok [Call.Run u s0.current_thread_] s0) := by
  refine ⟨⟨_, Thread.Start_ok t env s hsig halt hid, rfl, ?_, ?_, rfl⟩, ?_, ?_⟩
  · simp [State.current, State.deref]
  · simp [State.current, State.deref]
  · intro s0
    simp [sigthread_trampoline, setjmp]
  · intro s0 val u hval hcb hctx
    simp [sigthread_trampoline, setjmp, hval, hcb, hctx, ThreadEntry]

/-- C5 on a `Thread` constructed at address 0 in the initial state. -/
theorem C5_start_runs_entry_once_witness :
    (∃ s1, Thread.Start 0 ⟨0, 4096, 0⟩ (Thread.new 0 State.initial) =
        Outcome.ok [Call.Run 0 (CtxRef.handle 0)] s1 ∧
      s1.current_thread_ = CtxRef.handle 0 ∧
      s1.current.st_cb = Callback.ThreadEntry ∧
      s1.current.st_ctx = some 0 ∧
      s1.sigthread_trampoline_complete_ = true) ∧
    (∀ s0 : State, sigthread_trampoline Pass.signal s0 =
      Outcome.ok [] { (s0.modifyCurrent fun r => { r with st_jmp := true }) with
        sigthread_trampoline_complete_ := true }) ∧
    (∀ (s0 : State) (val : Int) (u : Nat), val ≠ 0 →
      s0.current.st_cb = Callback.ThreadEntry → s0.current.st_ctx = some u →
      sigthread_trampoline (Pass.resumed val) s0 =
        Outcome.ok [Call.Run u s0.current_thread_] s0) :=
  C5_start_runs_entry_once 0 ⟨0, 4096, 0⟩ (Thread.new 0 State.initial) rfl rfl (by decide)

/-! ## Sampler: suspend and resume are paired -/

theorem Kernel.resume_after_suspend (k : Kernel) (port : Nat) :
    ((k.thread_suspend port KERN_SUCCESS).thread_resume port).suspend_count =
      k.suspend_count := by
  funext p
  by_cases hp : p = port
  · subst hp
    simp [Kernel.thread_suspend, Kernel.thread_resume]
  · simp [Kernel.thread_suspend, Kernel.thread_resume, Function.update, hp]

/-- The body of the loop when profiling is disabled. -/
theorem tick_not_profiling (sampler : Sampler) (env : TickEnv) (k : Kernel)
    (hp : sampler.IsProfiling = false) :
    Sampler.PlatformData.tick sampler env k =
      (k, [SEvent.Tick { env.hook.getD TickSample.new with state := env.current_state }]) := by
  cases hh : env.hook <;> simp [Sampler.PlatformData.tick, hp, hh]

/-- The body of the loop when the suspend fails. -/
theorem tick_suspend_failed (sampler : Sampler) (env : TickEnv) (k : Kernel)
    (hp : sampler.IsProfiling = true) (hs : env.suspend_ret ≠ KERN_SUCCESS) :
    Sampler.PlatformData.tick sampler env k =
      (k, [SEvent.thread_suspend sampler.data_.profiled_thread_,
        SEvent.Tick { env.hook.getD TickSample.new with state := env.current_state }]) := by
  have hs2 : ¬ (0 = env.suspend_ret) := fun h => hs h.symm
  have hs3 : ¬ (env.suspend_ret = 0) := hs
  cases hh : env.hook <;>
    simp [Sampler.PlatformData.tick, hp, hh, hs2, hs3, Kernel.thread_suspend]

/-- The body of the loop when the suspend succeeds and the register read
fails. -/
theorem tick_read_failed (sampler : Sampler) (env : TickEnv) (k : Kernel)
    (hp : sampler.IsProfiling = true) (hs : env.suspend_ret = KERN_SUCCESS)
    (hg : env.get_state_ret ≠ KERN_SUCCESS) :
    Sampler.PlatformData.tick sampler env k =
      (((k.thread_suspend sampler.data_.profiled_thread_ KERN_SUCCESS).thread_resume
          sampler.data_.profiled_thread_),
        [SEvent.thread_suspend sampler.data_.profiled_thread_,
         SEvent.thread_get_state sampler.data_.profiled_thread_,
         SEvent.thread_resume sampler.data_.profiled_thread_,
         SEvent.Tick { env.hook.getD TickSample.new with state := env.current_state }]) := by
  have hg2 : ¬ (env.get_state_ret = 0) := hg
  cases hh : env.hook <;> simp [Sampler.PlatformData.tick, hp, hh, hs, hg2]

/-- The body of the loop when the suspend and the register read succeed. -/
theorem tick_read_ok (sampler : Sampler) (env : TickEnv) (k : Kernel)
    (hp : sampler.IsProfiling = true) (hs : env.suspend_ret = KERN_SUCCESS)
    (hg : env.get_state_ret = KERN_SUCCESS) :
    Sampler.PlatformData.tick sampler env k =
      (((k.thread_suspend sampler.data_.profiled_thread_ KERN_SUCCESS).thread_resume
          sampler.data_.profiled_thread_),
        [SEvent.thread_suspend sampler.data_.profiled_thread_,
         SEvent.thread_get_state sampler.data_.profiled_thread_,
         SEvent.SampleStack
           { state := env.current_state, pc := env.ip, sp := env.sp, fp := env.bp },
         SEvent.thread_resume sampler.data_.profiled_thread_,
         SEvent.Tick
           { state := env.current_state, pc := env.ip, sp := env.sp, fp := env.bp }]) := by
  simp [Sampler.PlatformData.tick, hp, hs, hg]

theorem tick_suspend_count (sampler : Sampler) (env : TickEnv) (k : Kernel) :
    (Sampler.PlatformData.tick sampler env k).1.suspend_count = k.suspend_count := by
  cases hp : sampler.IsProfiling with
  | false => rw [tick_not_profiling sampler env k hp]
  | true =>
    by_cases hs : env.suspend_ret = KERN_SUCCESS
    · by_cases hg : env.get_state_ret = KERN_SUCCESS
      · rw [tick_read_ok sampler env k hp hs hg]
        exact Kernel.resume_after_suspend k _
      · rw [tick_read_failed sampler env k hp hs hg]
        exact Kernel.resume_after_suspend k _
    · rw [tick_suspend_failed sampler env k hp hs]

theorem Runner_suspend_count (sampler : Sampler) (iters : List (Bool × TickEnv)) (k : Kernel) :
    (Sampler.PlatformData.Runner sampler iters k).1.suspend_count = k.suspend_count := by
  induction iters generalizing k with
  | nil => rfl
  | cons it rest ih =>
    obtain ⟨active, env⟩ := it
    cases active with
    | false => simp [Sampler.PlatformData.Runner, Sampler.IsActive]
    | true =>
      simp only [Sampler.PlatformData.Runner, Sampler.IsActive, if_true]
      rw [ih, tick_suspend_count]

/-- C6: in an iteration of the worker loop, whatever the suspend and the
register read return, `thread_suspend` is attempted once when profiling is
enabled and not at all otherwise, and `thread_resume` is called exactly once
when profiling is enabled and the suspend succeeded (also when the register
read failed) and not at all otherwise. The suspend count of every thread,
the target included, is after the tick what it was before, and so after any
number of iterations of the loop. -/
theorem C6_resume_iff_suspended (sampler : Sampler) (env : TickEnv) (k : Kernel) :
    ((Sampler.PlatformData.tick sampler env k).2.countP SEvent.isSuspend =
      if sampler.IsProfiling = true then 1 else 0) ∧
    ((Sampler.PlatformData.tick sampler env k).2.countP SEvent.isResume =
      if sampler.IsProfiling = true ∧ env.suspend_ret = KERN_SUCCESS then 1 else 0) ∧
    (Sampler.PlatformData.tick sampler env k).1.suspend_count = k.suspend_count ∧
    ∀ iters : List (Bool × TickEnv),
      (Sampler.PlatformData.Runner sampler iters k).1.suspend_count = k.suspend_count := by
  refine ⟨?_, ?_, tick_suspend_count sampler env k,
    fun iters => Runner_suspend_count sampler iters k⟩
  · cases hp : sampler.IsProfiling with
    | false => simp [tick_not_profiling sampler env k hp, SEvent.isSuspend]
    | true =>
      by_cases hs : env.suspend_ret = KERN_SUCCESS
      · by_cases hg : env.get_state_ret = KERN_SUCCESS
        · simp [tick_read_ok sampler env k hp hs hg, SEvent.isSuspend]
        · simp [tick_read_failed sampler env k hp hs hg, SEvent.isSuspend]
      · simp [tick_suspend_failed sampler env k hp hs, SEvent.isSuspend]
  · cases hp : sampler.IsProfiling with
    | false => simp [tick_not_profiling sampler env k hp, SEvent.isResume]
    | true =>
      by_cases hs : env.suspend_ret = KERN_SUCCESS
      · by_cases hg : env.get_state_ret = KERN_SUCCESS
        · simp [tick_read_ok sampler env k hp hs hg, SEvent.isResume, hs]
        · simp [tick_read_failed sampler env k hp hs hg, SEvent.isResume, hs]
      · simp [tick_suspend_failed sampler env k hp hs, SEvent.isResume, hs]

/-! ## Sampler: the sample handed to the tick callback -/

/-- C7, as stated, fails: with profiling disabled and a sample object
supplied by the hook that still holds sp 4096 and fp 4112, the one sample
dispatched carries the tag 7 read from the oracle and the sp and fp of the
supplied object, not the placeholder values of a fresh sample. -/
theorem C7_counterexample_supplied_sample :
    (Sampler.PlatformData.tick (Sampler.new 10 false 1)
        { hook := some { state := 0, pc := 0, sp := 4096, fp := 4112 }, current_state := 7,
          suspend_ret := 0, get_state_ret := 0, ip := 1, sp := 2, bp := 3 } Kernel.idle).2 =
      [SEvent.Tick { state := 7, pc := 0, sp := 4096, fp := 4112 }] ∧
    (4096 : Ptr) ≠ TickSample.new.sp ∧ (4112 : Ptr) ≠ TickSample.new.fp := by
  decide

/-- C7, amended: in every tick the callbacks invoked are, in order, these.
When profiling is enabled and both the suspend and the register read succeed:
`SampleStack` and then `Tick`, once each, on the sample with the tag read
from the state oracle and pc, sp, fp set from the registers ip, sp, bp of the
target. In every other case `Tick` alone, once, on the sample object with
only its tag written: the hook-supplied object with the pc, sp, fp it came
with, or, when the hook supplied none, the stack-local one with pc, sp, fp at
the placeholder values of a fresh sample. -/
theorem C7_dispatched_sample (sampler : Sampler) (env : TickEnv) (k : Kernel) :
    (Sampler.PlatformData.tick sampler env k).2.filter SEvent.isCallback =
      if sampler.IsProfiling = true ∧ env.suspend_ret = KERN_SUCCESS ∧
          env.get_state_ret = KERN_SUCCESS then
        [SEvent.SampleStack
           { state := env.current_state, pc := env.ip, sp := env.sp, fp := env.bp },
         SEvent.Tick
           { state := env.current_state, pc := env.ip, sp := env.sp, fp := env.bp }]
      else
        [SEvent.Tick
          (match env.hook with
           | some supplied => { supplied with state := env.current_state }
           | none => { TickSample.new with state := env.current_state })] := by
  cases hp : sampler.IsProfiling with
  | false =>
    rw [tick_not_profiling sampler env k hp]
    cases hh : env.hook <;> simp [SEvent.isCallback]
  | true =>
    by_cases hs : env.suspend_ret = KERN_SUCCESS
    · by_cases hg : env.get_state_ret = KERN_SUCCESS
      · rw [tick_read_ok sampler env k hp hs hg]
        simp [SEvent.isCallback, hs, hg]
      · rw [tick_read_failed sampler env k hp hs hg]
        cases hh : env.hook <;> simp [SEvent.isCallback, hs, hg]
    · rw [tick_suspend_failed sampler env k hp hs]
      cases hh : env.hook <;> simp [SEvent.isCallback, hs]

/-! ## Sampler: start and stop -/

/-- C8, as stated, fails: a profiling sampler started once (worker 7, target
port 100) is active; a second `Start` on it is not rejected: it spawns the
worker 9 beside the worker 7 and overwrites both recorded handles. -/
theorem C8_counterexample_second_start :
    (Sampler.Start (Sampler.new 10 true 1) ⟨100, some 7⟩ Kernel.idle).1.active_ = true ∧
    (Sampler.Start (Sampler.new 10 true 1) ⟨100, some 7⟩ Kernel.idle).1.data_ =
      { task_self_ := 1, profiled_thread_ := 100, sampler_thread_ := 7 } ∧
    (Sampler.Start (Sampler.new 10 true 1) ⟨100, some 7⟩ Kernel.idle).2.workers = [7] ∧
    (Sampler.Start (Sampler.Start (Sampler.new 10 true 1) ⟨100, some 7⟩ Kernel.idle).1
        ⟨200, some 9⟩
        (Sampler.Start (Sampler.new 10 true 1) ⟨100, some 7⟩ Kernel.idle).2).2.workers = [7, 9] ∧
    (Sampler.Start (Sampler.Start (Sampler.new 10 true 1) ⟨100, some 7⟩ Kernel.idle).1
        ⟨200, some 9⟩
        (Sampler.Start (Sampler.new 10 true 1) ⟨100, some 7⟩ Kernel.idle).2).1.data_ =
      { task_self_ := 1, profiled_thread_ := 200, sampler_thread_ := 9 } := by
  decide

/-- C8, amended: `Sampler::Start` and `Sampler::Stop` do not look at the
active flag. `Start` does on a running sampler what it does on an idle one:
it leaves the sampler active, records the port of the calling thread as the
target when profiling, and a worker that `pthread_create` starts is added to
the live workers and recorded as the worker handle, over the one recorded
before. `Stop` does on an idle sampler what it does on a running one: it
leaves the sampler idle, the thread named by the recorded worker handle is no
longer live, and when profiling the target port is released. A sampler is
idle after construction, active after `Start` and idle after `Stop`. -/
theorem C8_start_stop_unguarded (sampler : Sampler) (env : SamplerEnv) (k : Kernel)
    (interval : Int) (profiling : Bool) (task_self : Nat) :
    (Sampler.new interval profiling task_self).IsActive = false ∧
    (Sampler.Start sampler env k).1.IsActive = true ∧
    (Sampler.Stop (Sampler.Start sampler env k).1 (Sampler.Start sampler env k).2).1.IsActive
      = false ∧
    Sampler.Start { sampler with active_ := true } env k =
      Sampler.Start { sampler with active_ := false } env k ∧
    Sampler.Stop { sampler with active_ := false } k =
      Sampler.Stop { sampler with active_ := true } k ∧
    (Sampler.Stop sampler k).1.IsActive = false ∧
    (Sampler.Stop sampler k).2.workers = k.workers.erase sampler.data_.sampler_thread_ ∧
    (Sampler.Stop sampler k).2.deallocated =
      (if sampler.IsProfiling = true then
        k.deallocated ++ [(sampler.data_.task_self_, sampler.data_.profiled_thread_)]
       else k.deallocated) ∧
    (Sampler.Start sampler env k).1.data_.profiled_thread_ =
      (if sampler.IsProfiling = true then env.mach_thread_self
       else sampler.data_.profiled_thread_) ∧
    (∀ tid, env.pthread_create = some tid →
      (Sampler.Start sampler env k).2.workers = k.workers ++ [tid] ∧
      (Sampler.Start sampler env k).1.data_.sampler_thread_ = tid) := by
  refine ⟨rfl, ?_, ?_, ?_, ?_, ?_, ?_, ?_, ?_, ?_⟩
  · cases hc : env.pthread_create <;> simp [Sampler.Start, hc, Sampler.IsActive]
  · simp only [Sampler.Stop]
    split_ifs <;> rfl
  · cases hp : sampler.profiling_ <;> cases hc : env.pthread_create <;>
      simp [Sampler.Start, Sampler.IsProfiling, hp, hc]
  · cases hp : sampler.profiling_ <;> simp [Sampler.Stop, Sampler.IsProfiling, hp]
  · simp only [Sampler.Stop]
    split_ifs <;> rfl
  · simp only [Sampler.Stop]
    split_ifs <;> rfl
  · cases hp : sampler.profiling_ <;> simp [Sampler.Stop, Sampler.IsProfiling, hp]
  · cases hp : sampler.profiling_ <;> cases hc : env.pthread_create <;>
      simp [Sampler.Start, Sampler.IsProfiling, hp, hc]
  · intro tid hc
    simp [Sampler.Start, hc]

/-! ## Thread-local slots: the key range -/

/-- C9: `GetThreadLocal(key)` and `SetThreadLocal(key, v)` succeed exactly
when `0 <= key < 16`; for any other key both end in a failed assertion, in
the state they were called in, so that the failed `SetThreadLocal` leaves the
record of every context as it was. -/
theorem C9_key_range_asserted (key : Int) (value : Ptr) (s : State) :
    ((Thread.GetThreadLocal key s).fault = none ↔ (0 ≤ key ∧ key < 16)) ∧
    ((Thread.SetThreadLocal key value s).fault = none ↔ (0 ≤ key ∧ key < 16)) ∧
    (¬ (0 ≤ key ∧ key < 16) →
      Thread.GetThreadLocal key s = Outcome.fatal Fault.assertion s ∧
      Thread.SetThreadLocal key value s = Outcome.fatal Fault.assertion s ∧
      ∀ r, (Thread.SetThreadLocal key value s).state.deref r = s.deref r) := by
  by_cases h0 : 0 ≤ key
  · by_cases h1 : key < 16
    · simp [GetThreadLocal_ok s key h0 h1, SetThreadLocal_ok s key value h0 h1, Outcome.fault,
        h0, h1]
    · simp [Thread.GetThreadLocal, Thread.SetThreadLocal, ASSERT, Outcome.fault, Outcome.state,
        h0, h1]
  · simp [Thread.GetThreadLocal, Thread.SetThreadLocal, ASSERT, Outcome.fault, Outcome.state, h0]

/-! ## Thread-local slots: keys are not reclaimed -/

/-- An operation that succeeds either is a `CreateThreadLocalKey` returning
the counter and advancing it by one, or returns no key and leaves the counter
alone. -/
theorem exec_next_local_ (op : Op) (s : State) (r : Ret) (s1 : State)
    (hs : op.exec s = Outcome.ok r s1) :
    (r = Ret.key s.next_local_ ∧ s1.next_local_ = s.next_local_ + 1) ∨
    ((∀ k, r ≠ Ret.key k) ∧ s1.next_local_ = s.next_local_) := by
  cases op with
  | newHandle kind a =>
    simp only [Op.exec, Outcome.ok.injEq] at hs
    obtain ⟨hr, hs⟩ := hs
    subst hs hr
    right
    cases kind <;> exact ⟨fun k => by simp, rfl⟩
  | start t env =>
    simp only [Op.exec] at hs
    right
    by_cases hsig : env.sigaction_ret = 0
    · by_cases halt : env.sigaltstack_ret = 0
      · by_cases hid : s.next_current_thread_id_ = INT_MAX
        · simp [Thread.Start, hsig, halt, hid, Outcome.map] at hs
        · rw [Thread.Start_ok t env s hsig halt hid] at hs
          simp only [Outcome.map, Outcome.ok.injEq] at hs
          obtain ⟨hr, hs⟩ := hs
          subst hs hr
          exact ⟨fun k => by simp, rfl⟩
      · simp [Thread.Start, hsig, halt, Outcome.map] at hs
    · simp [Thread.Start, hsig, Outcome.map] at hs
  | createKey =>
    simp only [Op.exec] at hs
    left
    by_cases hlt : s.next_local_ < 16
    · simp only [CreateThreadLocalKey_ok s hlt, Outcome.map, Outcome.ok.injEq] at hs
      obtain ⟨hr, hs⟩ := hs
      subst hs hr
      exact ⟨rfl, rfl⟩
    · simp [CreateThreadLocalKey_full s hlt, Outcome.map] at hs
  | deleteKey key =>
    simp only [Op.exec, Thread.DeleteThreadLocalKey, Outcome.map, Outcome.ok.injEq] at hs
    obtain ⟨hr, hs⟩ := hs
    subst hs hr
    exact Or.inr ⟨fun k => by simp, rfl⟩
  | getLocal key =>
    simp only [Op.exec] at hs
    right
    by_cases h0 : 0 ≤ key
    · by_cases h1 : key < 16
      · simp only [GetThreadLocal_ok s key h0 h1, Outcome.map, Outcome.ok.injEq] at hs
        obtain ⟨hr, hs⟩ := hs
        subst hs hr
        exact ⟨fun k => by simp, rfl⟩
      · simp [Thread.GetThreadLocal, ASSERT, h0, h1, Outcome.map] at hs
    · simp [Thread.GetThreadLocal, ASSERT, h0, Outcome.map] at hs
  | setLocal key value =>
    simp only [Op.exec] at hs
    right
    rcases SetThreadLocal_cases key value s with hc | ⟨i, _, hc⟩
    · simp [hc, Outcome.map] at hs
    · simp only [hc, Outcome.map, Outcome.ok.injEq] at hs
      obtain ⟨hr, hs⟩ := hs
      subst hs hr
      exact ⟨fun k => by simp, by simp [State.modifyCurrent, State.store_next_local_]⟩

/-- The keys issued in a run lie between the counter before and the counter
after, and each is greater than those issued before it. -/
theorem run_issuedKeys (ops : List Op) (s : State) (rets : List Ret) (s1 : State)
    (hs : run ops s = Outcome.ok rets s1) :
    s.next_local_ ≤ s1.next_local_ ∧
    (∀ k ∈ issuedKeys rets, s.next_local_ ≤ k ∧ k < s1.next_local_) ∧
    (issuedKeys rets).Pairwise (· < ·) := by
  induction ops generalizing s rets with
  | nil =>
    simp only [Sigstack.run, Outcome.ok.injEq] at hs
    obtain ⟨hr, hs⟩ := hs
    subst hs hr
    simp [issuedKeys]
  | cons op ops ih =>
    simp only [Sigstack.run] at hs
    cases hop : op.exec s with
    | fatal f s2 => simp [hop] at hs
    | ok r s2 =>
      simp only [hop] at hs
      cases hrest : Sigstack.run ops s2 with
      | fatal f s3 => simp [hrest, Outcome.map] at hs
      | ok rs s3 =>
        simp only [hrest, Outcome.map, Outcome.ok.injEq] at hs
        obtain ⟨hr, hs⟩ := hs
        subst hs hr
        obtain ⟨i1, i2, i3⟩ := ih s2 rs hrest
        rcases exec_next_local_ op s r s2 hop with ⟨hk, hn⟩ | ⟨hk, hn⟩
        · subst hk
          simp only [issuedKeys, List.mem_cons, List.pairwise_cons]
          refine ⟨by omega, ?_, ?_, i3⟩
          · intro k hk
            rcases hk with hk | hk
            · subst hk
              omega
            · have := i2 k hk
              omega
          · intro k hk
            have := i2 k hk
            omega
        · have hkeys : issuedKeys (r :: rs) = issuedKeys rs := by
            cases r with
            | key k => exact absurd rfl (hk k)
            | unit => rfl
            | value p => rfl
            | calls cs => rfl
          rw [hkeys]
          refine ⟨by omega, ?_, i3⟩
          intro k hk
          have := i2 k hk
          omega

/-- C10: `DeleteThreadLocalKey(key)` returns in the state it was called in,
for every key and state: counter, active context and slots are as before, a
`GetThreadLocal` gives after it what it gave before it, and a value stored
under a key of `[0,16)` is still returned after that key is deleted. Keys are
not reused: in any run of operations of the thread API, deletions included,
each key issued is greater than every key issued before it, and a key created
after the run is greater than every key issued in it. -/
theorem C10_delete_is_noop (key : Int) (s : State) (ops : List Op) (rets : List Ret)
    (s1 : State) (hrun : run ops s = Outcome.ok rets s1) :
    Thread.DeleteThreadLocalKey key s = Outcome.ok () s ∧
    (∀ k, Thread.GetThreadLocal k (Thread.DeleteThreadLocalKey key s).state =
      Thread.GetThreadLocal k s) ∧
    (∀ v, 0 ≤ key → key < 16 →
      ∃ s2, Thread.SetThreadLocal key v s = Outcome.ok () s2 ∧
        Thread.GetThreadLocal key (Thread.DeleteThreadLocalKey key s2).state =
          Outcome.ok v s2) ∧
    (issuedKeys rets).Pairwise (· < ·) ∧
    (∀ k s2, Thread.CreateThreadLocalKey s1 = Outcome.ok k s2 →
      ∀ k0 ∈ issuedKeys rets, k0 < k) := by
  obtain ⟨_, i2, i3⟩ := run_issuedKeys ops s rets s1 hrun
  refine ⟨rfl, fun _ => rfl, ?_, i3, ?_⟩
  · intro v h0 h1
    obtain ⟨s2, hset, _, hget⟩ := SetThreadLocal_then_get s key v h0 h1
    exact ⟨s2, hset, hget⟩
  · intro k s2 hc k0 hk0
    have hlt := (i2 k0 hk0).2
    by_cases hfull : s1.next_local_ < 16
    · rw [CreateThreadLocalKey_ok s1 hfull] at hc
      injection hc with hk _
      omega
    · rw [CreateThreadLocalKey_full s1 hfull] at hc
      cases hc

/-- C10 on a run from the initial state that creates three keys and deletes
the first two of them in between. -/
theorem C10_delete_is_noop_witness :
    Thread.DeleteThreadLocalKey 1 State.initial = Outcome.ok () State.initial ∧
    (∀ k, Thread.GetThreadLocal k (Thread.DeleteThreadLocalKey 1 State.initial).state =
      Thread.GetThreadLocal k State.initial) ∧
    (∀ v, (0 : Int) ≤ 1 → (1 : Int) < 16 →
      ∃ s2, Thread.SetThreadLocal 1 v State.initial = Outcome.ok () s2 ∧
        Thread.GetThreadLocal 1 (Thread.DeleteThreadLocalKey 1 s2).state =
          Outcome.ok v s2) ∧
    (issuedKeys [Ret.key 0, Ret.unit, Ret.key 1, Ret.unit, Ret.unit, Ret.key 2]).Pairwise
      (· < ·) ∧
    (∀ k s2, Thread.CreateThreadLocalKey
        (run [Op.createKey, Op.deleteKey 0, Op.createKey, Op.setLocal 1 5, Op.deleteKey 1,
          Op.createKey] State.initial).state = Outcome.ok k s2 →
      ∀ k0 ∈ issuedKeys [Ret.key 0, Ret.unit, Ret.key 1, Ret.unit, Ret.unit, Ret.key 2],
        k0 < k) :=
  C10_delete_is_noop 1 State.initial
    [Op.createKey, Op.deleteKey 0, Op.createKey, Op.setLocal 1 5, Op.deleteKey 1, Op.createKey]
    [Ret.key 0, Ret.unit, Ret.key 1, Ret.unit, Ret.unit, Ret.key 2] _ rfl

/-! ## `Thread::Start` when a system call fails -/

/-- C11: when `sigaction` or `sigaltstack` fails, `Thread::Start` ends the
process with `exit(1)` in the very state it was called in: the
active-context pointer, the next-identifier counter, the identifier of the
thread and its stored entry and argument, like everything else in the
registry, are as before, and control never passes to the entry function. -/
theorem C11_start_exits_before_update (t : Nat) (env : StartEnv) (s : State)
    (h : env.sigaction_ret ≠ 0 ∨ env.sigaltstack_ret ≠ 0) :
    Thread.Start t env s = Outcome.fatal (Fault.exit 1) s ∧
    (Thread.Start t env s).state.current_thread_ = s.current_thread_ ∧
    (Thread.Start t env s).state.next_current_thread_id_ = s.next_current_thread_id_ ∧
    ((Thread.Start t env s).state.heap t).st_id = (s.heap t).st_id ∧
    ((Thread.Start t env s).state.heap t).st_cb = (s.heap t).st_cb ∧
    ((Thread.Start t env s).state.heap t).st_ctx = (s.heap t).st_ctx ∧
    ∀ calls s1, Thread.Start t env s ≠ Outcome.ok calls s1 := by
  have hfat : Thread.Start t env s = Outcome.fatal (Fault.exit 1) s := by
    by_cases hsig : env.sigaction_ret = 0
    · rcases h with h | h
      · exact absurd hsig h
      · simp [Thread.Start, hsig, h]
    · simp [Thread.Start, hsig]
  rw [hfat]
  exact ⟨rfl, rfl, rfl, rfl, rfl, rfl, fun _ _ hc => by cases hc⟩

/-- C11 on a `Thread` constructed at address 0 in the initial state, with
`sigaction` returning -1. -/
theorem C11_start_exits_before_update_witness :
    Thread.Start 0 ⟨-1, 4096, 0⟩ (Thread.new 0 State.initial) =
      Outcome.fatal (Fault.exit 1) (Thread.new 0 State.initial) ∧
    (Thread.Start 0 ⟨-1, 4096, 0⟩ (Thread.new 0 State.initial)).state.current_thread_ =
      (Thread.new 0 State.initial).current_thread_ ∧
    (Thread.Start 0 ⟨-1, 4096, 0⟩ (Thread.new 0 State.initial)).state.next_current_thread_id_ =
      (Thread.new 0 State.initial).next_current_thread_id_ ∧
    ((Thread.Start 0 ⟨-1, 4096, 0⟩ (Thread.new 0 State.initial)).state.heap 0).st_id =
      ((Thread.new 0 State.initial).heap 0).st_id ∧
    ((Thread.Start 0 ⟨-1, 4096, 0⟩ (Thread.new 0 State.initial)).state.heap 0).st_cb =
      ((Thread.new 0 State.initial).heap 0).st_cb ∧
    ((Thread.Start 0 ⟨-1, 4096, 0⟩ (Thread.new 0 State.initial)).state.heap 0).st_ctx =
      ((Thread.new 0 State.initial).heap 0).st_ctx ∧
    ∀ calls s1, Thread.Start 0 ⟨-1, 4096, 0⟩ (Thread.new 0 State.initial) ≠
      Outcome.ok calls s1 :=
  C11_start_exits_before_update 0 ⟨-1, 4096, 0⟩ (Thread.new 0 State.initial)
    (Or.inl (by decide))

/-! ## Identifiers handed out by `Thread::Start` -/

/-- A `Thread::Start` that hands over control gave the record at `t` the
value of the counter, advanced the counter by one and left the other records
of the store alone. -/
theorem Thread.Start_effect (t : Nat) (env : StartEnv) (s : State) (calls : List Call)
    (s1 : State) (hs : Thread.Start t env s = Outcome.ok calls s1) :
    (s1.heap t).st_id = s.next_current_thread_id_ ∧
    s1.next_current_thread_id_ = s.next_current_thread_id_ + 1 ∧
    s1.main_thread_ = s.main_thread_ ∧
    ∀ a, a ≠ t → s1.heap a = s.heap a := by
  by_cases hsig : env.sigaction_ret = 0
  · by_cases halt : env.sigaltstack_ret = 0
    · by_cases hid : s.next_current_thread_id_ = INT_MAX
      · simp [Thread.Start, hsig, halt, hid] at hs
      · rw [Thread.Start_ok t env s hsig halt hid] at hs
        injection hs with _ hs
        subst hs
        refine ⟨by simp, rfl, rfl, fun a ha => ?_⟩
        simp [Function.update, ha]
    · simp [Thread.Start, hsig, halt] at hs
  · simp [Thread.Start, hsig] at hs

/-- An operation that succeeds either is a `Thread::Start`, which gives the
started record the counter and advances it by one, or leaves the counter
alone. -/
theorem exec_next_id (op : Op) (s : State) (r : Ret) (s1 : State)
    (hs : op.exec s = Outcome.ok r s1) :
    (∃ t env, op = Op.start t env ∧ (s1.heap t).st_id = s.next_current_thread_id_ ∧
      s1.next_current_thread_id_ = s.next_current_thread_id_ + 1) ∨
    (op.isStart = false ∧ s1.next_current_thread_id_ = s.next_current_thread_id_) := by
  cases op with
  | newHandle kind a =>
    simp only [Op.exec, Outcome.ok.injEq] at hs
    obtain ⟨_, hs⟩ := hs
    subst hs
    right
    cases kind <;> exact ⟨rfl, rfl⟩
  | start t env =>
    simp only [Op.exec] at hs
    left
    cases hst : Thread.Start t env s with
    | fatal f s2 => simp [hst, Outcome.map] at hs
    | ok calls s2 =>
      simp only [hst, Outcome.map, Outcome.ok.injEq] at hs
      obtain ⟨_, hs⟩ := hs
      subst hs
      obtain ⟨e1, e2, _, _⟩ := Thread.Start_effect t env s calls s2 hst
      exact ⟨t, env, rfl, e1, e2⟩
  | createKey =>
    simp only [Op.exec] at hs
    right
    by_cases hlt : s.next_local_ < 16
    · simp only [CreateThreadLocalKey_ok s hlt, Outcome.map, Outcome.ok.injEq] at hs
      obtain ⟨_, hs⟩ := hs
      subst hs
      exact ⟨rfl, rfl⟩
    · simp [CreateThreadLocalKey_full s hlt, Outcome.map] at hs
  | deleteKey key =>
    simp only [Op.exec, Thread.DeleteThreadLocalKey, Outcome.map, Outcome.ok.injEq] at hs
    obtain ⟨_, hs⟩ := hs
    subst hs
    exact Or.inr ⟨rfl, rfl⟩
  | getLocal key =>
    simp only [Op.exec] at hs
    right
    by_cases h0 : 0 ≤ key
    · by_cases h1 : key < 16
      · simp only [GetThreadLocal_ok s key h0 h1, Outcome.map, Outcome.ok.injEq] at hs
        obtain ⟨_, hs⟩ := hs
        subst hs
        exact ⟨rfl, rfl⟩
      · simp [Thread.GetThreadLocal, ASSERT, h0, h1, Outcome.map] at hs
    · simp [Thread.GetThreadLocal, ASSERT, h0, Outcome.map] at hs
  | setLocal key value =>
    simp only [Op.exec] at hs
    right
    rcases SetThreadLocal_cases key value s with hc | ⟨i, _, hc⟩
    · simp [hc, Outcome.map] at hs
    · simp only [hc, Outcome.map, Outcome.ok.injEq] at hs
      obtain ⟨_, hs⟩ := hs
      subst hs
      exact ⟨rfl, by simp [State.modifyCurrent, State.store_next_id]⟩

/-- In a run without fault that begins with the counter at `n`, the starts
are given `n`, `n+1`, ... in their order, and the counter ends at `n` plus
the number of starts. -/
theorem run_assignedIds (ops : List Op) (s : State) (n : Nat) (rets : List Ret) (s1 : State)
    (hn : s.next_current_thread_id_ = (n : Int)) (hs : run ops s = Outcome.ok rets s1) :
    assignedIds ops s = (List.range' n (ops.countP Op.isStart)).map Int.ofNat ∧
    s1.next_current_thread_id_ = ((n + ops.countP Op.isStart : Nat) : Int) := by
  induction ops generalizing s n rets with
  | nil =>
    simp only [Sigstack.run, Outcome.ok.injEq] at hs
    obtain ⟨_, hs⟩ := hs
    subst hs
    simp [assignedIds, hn]
  | cons op ops ih =>
    simp only [Sigstack.run] at hs
    cases hop : op.exec s with
    | fatal f s2 => simp [hop] at hs
    | ok r s2 =>
      simp only [hop] at hs
      cases hrest : Sigstack.run ops s2 with
      | fatal f s3 => simp [hrest, Outcome.map] at hs
      | ok rs s3 =>
        simp only [hrest, Outcome.map, Outcome.ok.injEq] at hs
        obtain ⟨_, hs⟩ := hs
        subst hs
        rcases exec_next_id op s r s2 hop with ⟨t, env, hop2, hid, hnext⟩ | ⟨hns, hnext⟩
        · subst hop2
          have hn2 : s2.next_current_thread_id_ = ((n + 1 : Nat) : Int) := by
            rw [hnext, hn]
            push_cast
            rfl
          obtain ⟨i1, i2⟩ := ih s2 (n + 1) rs hn2 hrest
          constructor
          · simp only [assignedIds, hop, i1, hid, hn, Op.isStart, List.countP_cons_of_pos,
              List.range'_succ, List.map_cons]
            rfl
          · rw [i2]
            simp only [Op.isStart, List.countP_cons_of_pos]
            congr 1
            omega
        · have hn2 : s2.next_current_thread_id_ = (n : Int) := by rw [hnext, hn]
          obtain ⟨i1, i2⟩ := ih s2 n rs hn2 hrest
          have hcount : (op :: ops).countP Op.isStart = ops.countP Op.isStart := by
            rw [List.countP_cons_of_neg]
            simp [hns]
          rw [hcount]
          refine ⟨?_, i2⟩
          rw [← i1]
          cases op with
          | start t env => simp [Op.isStart] at hns
          | newHandle kind a => simp [assignedIds, hop]
          | createKey => simp [assignedIds, hop]
          | deleteKey key => simp [assignedIds, hop]
          | getLocal key => simp [assignedIds, hop]
          | setLocal key value => simp [assignedIds, hop]

theorem State.heap_modifyCurrent_st_id (s : State) (f : sigthread_t → sigthread_t)
    (hf : ∀ r, (f r).st_id = r.st_id) (a : Nat) :
    ((s.modifyCurrent f).heap a).st_id = (s.heap a).st_id := by
  unfold State.modifyCurrent State.store State.current State.deref
  cases s.current_thread_ with
  | main => rfl
  | handle b =>
    by_cases hab : a = b
    · subst hab
      simp [hf]
    · simp [Function.update, hab]

/-- An operation that does not construct, re-initialise or start the handle
at `a` leaves the identifier stored in it alone. -/
theorem exec_st_id_untouched (a : Nat) (op : Op) (s : State) (r : Ret) (s1 : State)
    (hfree : op.touches a = false) (hs : op.exec s = Outcome.ok r s1) :
    (s1.heap a).st_id = (s.heap a).st_id := by
  cases op with
  | newHandle kind b =>
    simp only [Op.exec, Outcome.ok.injEq] at hs
    obtain ⟨_, hs⟩ := hs
    subst hs
    have hab : a ≠ b := by
      intro hEq
      simp [Op.touches, hEq] at hfree
    cases kind <;>
      simp [ThreadHandle.new, ThreadHandle.PlatformData.Initialize, Function.update, hab]
  | start t env =>
    simp only [Op.exec] at hs
    have hat : a ≠ t := by
      intro hEq
      simp [Op.touches, hEq] at hfree
    cases hst : Thread.Start t env s with
    | fatal f s2 => simp [hst, Outcome.map] at hs
    | ok calls s2 =>
      simp only [hst, Outcome.map, Outcome.ok.injEq] at hs
      obtain ⟨_, hs⟩ := hs
      subst hs
      obtain ⟨_, _, _, e⟩ := Thread.Start_effect t env s calls s2 hst
      rw [e a hat]
  | createKey =>
    simp only [Op.exec] at hs
    by_cases hlt : s.next_local_ < 16
    · simp only [CreateThreadLocalKey_ok s hlt, Outcome.map, Outcome.ok.injEq] at hs
      obtain ⟨_, hs⟩ := hs
      subst hs
      rfl
    · simp [CreateThreadLocalKey_full s hlt, Outcome.map] at hs
  | deleteKey key =>
    simp only [Op.exec, Thread.DeleteThreadLocalKey, Outcome.map, Outcome.ok.injEq] at hs
    obtain ⟨_, hs⟩ := hs
    subst hs
    rfl
  | getLocal key =>
    simp only [Op.exec] at hs
    by_cases h0 : 0 ≤ key
    · by_cases h1 : key < 16
      · simp only [GetThreadLocal_ok s key h0 h1, Outcome.map, Outcome.ok.injEq] at hs
        obtain ⟨_, hs⟩ := hs
        subst hs
        rfl
      · simp [Thread.GetThreadLocal, ASSERT, h0, h1, Outcome.map] at hs
    · simp [Thread.GetThreadLocal, ASSERT, h0, Outcome.map] at hs
  | setLocal key value =>
    simp only [Op.exec] at hs
    rcases SetThreadLocal_cases key value s with hc | ⟨i, _, hc⟩
    · simp [hc, Outcome.map] at hs
    · simp only [hc, Outcome.map, Outcome.ok.injEq] at hs
      obtain ⟨_, hs⟩ := hs
      subst hs
      exact State.heap_modifyCurrent_st_id s
        (fun r => { r with st_locals := Function.update r.st_locals i value })
        (fun _ => rfl) a

theorem run_st_id_untouched (a : Nat) (ops : List Op) (s : State) (rets : List Ret)
    (s1 : State) (hfree : ∀ op ∈ ops, op.touches a = false)
    (hs : run ops s = Outcome.ok rets s1) :
    (s1.heap a).st_id = (s.heap a).st_id := by
  induction ops generalizing s rets with
  | nil =>
    simp only [Sigstack.run, Outcome.ok.injEq] at hs
    obtain ⟨_, hs⟩ := hs
    subst hs
    rfl
  | cons op ops ih =>
    simp only [Sigstack.run] at hs
    cases hop : op.exec s with
    | fatal f s2 => simp [hop] at hs
    | ok r s2 =>
      simp only [hop] at hs
      cases hrest : Sigstack.run ops s2 with
      | fatal f s3 => simp [hrest, Outcome.map] at hs
      | ok rs s3 =>
        simp only [hrest, Outcome.map, Outcome.ok.injEq] at hs
        obtain ⟨_, hs⟩ := hs
        subst hs
        rw [ih s2 rs (fun o ho => hfree o (List.mem_cons_of_mem _ ho)) hrest,
          exec_st_id_untouched a op s r s2 (hfree op (List.mem_cons_self _ _)) hop]

/-- C12: in a run of the thread API from the initial state that went without
fault, the `k`-th `Thread::Start` gave the context it started the identifier
`k-1`: the identifiers handed out are `0, 1, 2, ...` in the order of the
starts, hence strictly increasing, pairwise distinct and never the sentinel
`kNoThread`; the counter stands at the number of starts made, and a further
`Thread::Start` that hands over control gives its thread the counter's value
and advances the counter by exactly one. A `Thread` reports `IsValid()` false
once constructed and true once started, and operations that do not construct,
re-initialise or start it leave what it reports unchanged. -/
theorem C12_identifiers_increase (ops : List Op) (rets : List Ret) (s : State)
    (hrun : run ops State.initial = Outcome.ok rets s) :
    assignedIds ops State.initial = (List.range (ops.countP Op.isStart)).map Int.ofNat ∧
    (assignedIds ops State.initial).Pairwise (· < ·) ∧
    (assignedIds ops State.initial).Nodup ∧
    kNoThread ∉ assignedIds ops State.initial ∧
    s.next_current_thread_id_ = ((ops.countP Op.isStart : Nat) : Int) ∧
    (∀ t env calls s1, Thread.Start t env s = Outcome.ok calls s1 →
      (s1.heap t).st_id = ((ops.countP Op.isStart : Nat) : Int) ∧
      s1.next_current_thread_id_ = s.next_current_thread_id_ + 1 ∧
      ThreadHandle.IsValid t s1 = true) ∧
    (∀ a, ThreadHandle.IsValid a (Thread.new a s) = false) ∧
    (∀ a ops2 rets2 s0 s2, (∀ op ∈ ops2, op.touches a = false) →
      run ops2 s0 = Outcome.ok rets2 s2 →
      ThreadHandle.IsValid a s2 = ThreadHandle.IsValid a s0) := by
  have h0 : State.initial.next_current_thread_id_ = ((0 : Nat) : Int) := by
    simp [State.initial, sigthread_empty, sigthread_init]
  obtain ⟨hids, hnext⟩ := run_assignedIds ops State.initial 0 rets s h0 hrun
  rw [← List.range_eq_range'] at hids
  rw [Nat.zero_add] at hnext
  have hpair : (assignedIds ops State.initial).Pairwise (· < ·) := by
    rw [hids]
    exact List.Pairwise.map Int.ofNat (fun a b hab => Int.ofNat_lt.mpr hab)
      (List.pairwise_lt_range _)
  refine ⟨hids, hpair, hpair.imp (fun hab => ne_of_lt hab), ?_, hnext, ?_, ?_, ?_⟩
  · rw [hids]
    intro hmem
    obtain ⟨n, _, hn⟩ := List.mem_map.mp hmem
    have : (0 : Int) ≤ Int.ofNat n := Int.ofNat_nonneg n
    rw [hn] at this
    exact absurd this (by decide)
  · intro t env calls s1 hst
    obtain ⟨e1, e2, _, _⟩ := Thread.Start_effect t env s calls s1 hst
    refine ⟨by rw [e1, hnext], e2, ?_⟩
    simp only [ThreadHandle.IsValid, e1, hnext, bne_iff_ne, ne_eq, kNoThread]
    omega
  · intro a
    simp [ThreadHandle.IsValid, Thread.new_heap_self, sigthread_init]
  · intro a ops2 rets2 s0 s2 hfree hrun2
    simp only [ThreadHandle.IsValid, run_st_id_untouched a ops2 s0 rets2 s2 hfree hrun2]

/-- C12 on a run that constructs and starts the `Thread` at 0, then
constructs and starts the `Thread` at 1. -/
theorem C12_identifiers_increase_witness :
    assignedIds [Op.newHandle Kind.INVALID 0, Op.start 0 ⟨0, 4096, 0⟩,
        Op.newHandle Kind.INVALID 1, Op.start 1 ⟨0, 8192, 0⟩] State.initial =
      (List.range ([Op.newHandle Kind.INVALID 0, Op.start 0 ⟨0, 4096, 0⟩,
        Op.newHandle Kind.INVALID 1, Op.start 1 ⟨0, 8192, 0⟩].countP Op.isStart)).map
        Int.ofNat ∧
    assignedIds [Op.newHandle Kind.INVALID 0, Op.start 0 ⟨0, 4096, 0⟩,
        Op.newHandle Kind.INVALID 1, Op.start 1 ⟨0, 8192, 0⟩] State.initial = [0, 1] :=
  ⟨(C12_identifiers_increase [Op.newHandle Kind.INVALID 0, Op.start 0 ⟨0, 4096, 0⟩,
      Op.newHandle Kind.INVALID 1, Op.start 1 ⟨0, 8192, 0⟩]
      [Ret.unit, Ret.calls [Call.Run 0 (CtxRef.handle 0)], Ret.unit,
        Ret.calls [Call.Run 1 (CtxRef.handle 1)]] _ rfl).1, by decide⟩

/-! ## The main context carries the sentinel -/

/-- An operation other than `Thread::Start`, run while the main context is
active and holds the sentinel, keeps both so; a record of the store that held
the sentinel still holds it, and a handle the operation captured or
initialised, of either kind, holds it. -/
theorem exec_no_start (op : Op) (s : State) (r : Ret) (s1 : State)
    (hns : op.isStart = false) (hs : op.exec s = Outcome.ok r s1)
    (hcur : s.current_thread_ = CtxRef.main) (hmain : s.main_thread_.st_id = kNoThread) :
    s1.current_thread_ = CtxRef.main ∧ s1.main_thread_.st_id = kNoThread ∧
      (∀ a, (s.heap a).st_id = kNoThread → (s1.heap a).st_id = kNoThread) ∧
      (∀ kind a, op = Op.newHandle kind a → (s1.heap a).st_id = kNoThread) := by
  cases op with
  | start t env => simp [Op.isStart] at hns
  | newHandle kind b =>
    simp only [Op.exec, Outcome.ok.injEq] at hs
    obtain ⟨_, hs⟩ := hs
    subst hs
    have hself : ((ThreadHandle.new kind b s).heap b).st_id = kNoThread := by
      cases kind with
      | SELF =>
        show (Function.update s.heap b s.current b).st_id = kNoThread
        simpa [State.current, State.deref, hcur] using hmain
      | INVALID =>
        show (Function.update s.heap b (sigthread_init (s.heap b)) b).st_id = kNoThread
        simp [sigthread_init]
    have hc1 : (ThreadHandle.new kind b s).current_thread_ = CtxRef.main := by
      cases kind <;> exact hcur
    have hm1 : (ThreadHandle.new kind b s).main_thread_.st_id = kNoThread := by
      cases kind <;> exact hmain
    refine ⟨hc1, hm1, fun a ha => ?_, fun kind2 a hop => ?_⟩
    · by_cases hab : a = b
      · subst hab
        exact hself
      · cases kind <;>
          simpa [ThreadHandle.new, ThreadHandle.PlatformData.Initialize, Function.update, hab]
            using ha
    · injection hop with _ hba
      subst hba
      exact hself
  | createKey =>
    simp only [Op.exec] at hs
    by_cases hlt : s.next_local_ < 16
    · simp only [CreateThreadLocalKey_ok s hlt, Outcome.map, Outcome.ok.injEq] at hs
      obtain ⟨_, hs⟩ := hs
      subst hs
      exact ⟨hcur, hmain, fun _ ha => ha, fun _ _ hop => by cases hop⟩
    · simp [CreateThreadLocalKey_full s hlt, Outcome.map] at hs
  | deleteKey key =>
    simp only [Op.exec, Thread.DeleteThreadLocalKey, Outcome.map, Outcome.ok.injEq] at hs
    obtain ⟨_, hs⟩ := hs
    subst hs
    exact ⟨hcur, hmain, fun _ ha => ha, fun _ _ hop => by cases hop⟩
  | getLocal key =>
    simp only [Op.exec] at hs
    by_cases h0 : 0 ≤ key
    · by_cases h1 : key < 16
      · simp only [GetThreadLocal_ok s key h0 h1, Outcome.map, Outcome.ok.injEq] at hs
        obtain ⟨_, hs⟩ := hs
        subst hs
        exact ⟨hcur, hmain, fun _ ha => ha, fun _ _ hop => by cases hop⟩
      · simp [Thread.GetThreadLocal, ASSERT, h0, h1, Outcome.map] at hs
    · simp [Thread.GetThreadLocal, ASSERT, h0, Outcome.map] at hs
  | setLocal key value =>
    simp only [Op.exec] at hs
    rcases SetThreadLocal_cases key value s with hc | ⟨i, _, hc⟩
    · simp [hc, Outcome.map] at hs
    · simp only [hc, Outcome.map, Outcome.ok.injEq] at hs
      obtain ⟨_, hs⟩ := hs
      subst hs
      refine ⟨by rw [State.modifyCurrent_current_thread_, hcur], ?_, fun a ha => ?_,
        fun _ _ hop => by cases hop⟩
      · simpa [State.modifyCurrent, State.store, State.current, State.deref, hcur] using hmain
      · rw [State.heap_modifyCurrent_st_id s
          (fun r => { r with st_locals := Function.update r.st_locals i value })
          (fun _ => rfl) a]
        exact ha

/-- A run without `Thread::Start`, begun with the main context active and
holding the sentinel, ends so; the records that held the sentinel at the
beginning and the handles captured or initialised in the run hold it at the
end. -/
theorem run_no_start (ops : List Op) (s : State) (rets : List Ret) (s1 : State)
    (hns : ∀ op ∈ ops, op.isStart = false) (hs : run ops s = Outcome.ok rets s1)
    (hcur : s.current_thread_ = CtxRef.main) (hmain : s.main_thread_.st_id = kNoThread) :
    s1.current_thread_ = CtxRef.main ∧ s1.main_thread_.st_id = kNoThread ∧
      (∀ a, (s.heap a).st_id = kNoThread → (s1.heap a).st_id = kNoThread) ∧
      (∀ kind a, Op.newHandle kind a ∈ ops → (s1.heap a).st_id = kNoThread) := by
  induction ops generalizing s rets with
  | nil =>
    simp only [Sigstack.run, Outcome.ok.injEq] at hs
    obtain ⟨_, hs⟩ := hs
    subst hs
    exact ⟨hcur, hmain, fun _ ha => ha, fun _ _ hmem => by cases hmem⟩
  | cons op ops ih =>
    simp only [Sigstack.run] at hs
    cases hop : op.exec s with
    | fatal f s2 => simp [hop] at hs
    | ok r s2 =>
      simp only [hop] at hs
      cases hrest : Sigstack.run ops s2 with
      | fatal f s3 => simp [hrest, Outcome.map] at hs
      | ok rs s3 =>
        simp only [hrest, Outcome.map, Outcome.ok.injEq] at hs
        obtain ⟨_, hs⟩ := hs
        subst hs
        obtain ⟨c2, m2, k2, n2⟩ := exec_no_start op s r s2 (hns op (List.mem_cons_self _ _))
          hop hcur hmain
        obtain ⟨c3, m3, k3, n3⟩ := ih s2 rs (fun o ho => hns o (List.mem_cons_of_mem _ ho))
          hrest c2 m2
        refine ⟨c3, m3, fun a ha => k3 a (k2 a ha), fun kind a hmem => ?_⟩
        rcases List.mem_cons.mp hmem with hhead | htail
        · exact k3 a (n2 kind a hhead.symm)
        · exact n3 kind a htail

/-- C13: the process starts with `main_thread_ = sigthread_empty()` active,
over a store of handles holding any records at all. After any run of the
thread API from there that went without fault and contains no
`Thread::Start`, the main context is still the active one and its identifier
is the sentinel `kNoThread`. In that state a handle captured with kind `SELF`
reports `IsValid()` false; a handle initialised with kind `INVALID`, a newly
constructed `Thread` included, reports `IsSelf()` true; every handle captured
or initialised during the run, of either kind, reports `IsSelf()` true and
`IsValid()` false; and so does every record that held the sentinel when the
run began. -/
theorem C13_main_has_sentinel_id (heap : Nat → sigthread_t) (ops : List Op) (rets : List Ret)
    (s : State) (hns : ∀ op ∈ ops, op.isStart = false)
    (hrun : run ops (State.startup heap) = Outcome.ok rets s) :
    s.current_thread_ = CtxRef.main ∧
    s.current.st_id = kNoThread ∧
    (∀ a, ThreadHandle.IsValid a (ThreadHandle.new Kind.SELF a s) = false) ∧
    (∀ a, ThreadHandle.IsSelf a (ThreadHandle.new Kind.INVALID a s) = true) ∧
    (∀ a, ThreadHandle.IsSelf a (Thread.new a s) = true) ∧
    (∀ kind a, Op.newHandle kind a ∈ ops →
      ThreadHandle.IsSelf a s = true ∧ ThreadHandle.IsValid a s = false) ∧
    (∀ a, (heap a).st_id = kNoThread →
      ThreadHandle.IsSelf a s = true ∧ ThreadHandle.IsValid a s = false) := by
  obtain ⟨hcur, hmain, hkeep, hnew⟩ := run_no_start ops (State.startup heap) rets s hns hrun
    rfl rfl
  have hc : s.current.st_id = kNoThread := by
    simpa [State.current, State.deref, hcur] using hmain
  have hsent : ∀ a, (s.heap a).st_id = kNoThread →
      ThreadHandle.IsSelf a s = true ∧ ThreadHandle.IsValid a s = false := by
    intro a ha
    constructor
    · simp [ThreadHandle.IsSelf, ha, hc]
    · simp [ThreadHandle.IsValid, ha]
  have hinv : ∀ a, ThreadHandle.IsSelf a (ThreadHandle.new Kind.INVALID a s) = true := by
    intro a
    have hc2 : (ThreadHandle.new Kind.INVALID a s).current.st_id = kNoThread := by
      simpa [ThreadHandle.new, ThreadHandle.PlatformData.Initialize, State.current,
        State.deref, hcur] using hmain
    unfold ThreadHandle.IsSelf
    rw [hc2]
    simp [ThreadHandle.new, ThreadHandle.PlatformData.Initialize, sigthread_init]
  refine ⟨hcur, hc, fun a => ?_, hinv, fun a => hinv a,
    fun kind a hmem => hsent a (hnew kind a hmem), fun a ha => hsent a (hkeep a ha)⟩
  simp [ThreadHandle.IsValid, ThreadHandle.new, ThreadHandle.PlatformData.Initialize, hc]

/-- C13 over a store filled with `staleRecord` (identifier 5 everywhere), on
a run that captures the main context at address 0, constructs a `Thread` at
address 1 and stores a value in slot 2 of the main context. -/
theorem C13_main_has_sentinel_id_witness :
    (run [Op.newHandle Kind.SELF 0, Op.newHandle Kind.INVALID 1, Op.setLocal 2 7]
      (State.startup fun _ => staleRecord)).state.current_thread_ = CtxRef.main ∧
    (run [Op.newHandle Kind.SELF 0, Op.newHandle Kind.INVALID 1, Op.setLocal 2 7]
      (State.startup fun _ => staleRecord)).state.current.st_id = kNoThread ∧
    (∀ a, ThreadHandle.IsValid a (ThreadHandle.new Kind.SELF a
      (run [Op.newHandle Kind.SELF 0, Op.newHandle Kind.INVALID 1, Op.setLocal 2 7]
        (State.startup fun _ => staleRecord)).state) = false) ∧
    (∀ a, ThreadHandle.IsSelf a (ThreadHandle.new Kind.INVALID a
      (run [Op.newHandle Kind.SELF 0, Op.newHandle Kind.INVALID 1, Op.setLocal 2 7]
        (State.startup fun _ => staleRecord)).state) = true) ∧
    (∀ a, ThreadHandle.IsSelf a (Thread.new a
      (run [Op.newHandle Kind.SELF 0, Op.newHandle Kind.INVALID 1, Op.setLocal 2 7]
        (State.startup fun _ => staleRecord)).state) = true) ∧
    (∀ kind a, Op.newHandle kind a ∈
        [Op.newHandle Kind.SELF 0, Op.newHandle Kind.INVALID 1, Op.setLocal 2 7] →
      ThreadHandle.IsSelf a
          (run [Op.newHandle Kind.SELF 0, Op.newHandle Kind.INVALID 1, Op.setLocal 2 7]
            (State.startup fun _ => staleRecord)).state = true ∧
        ThreadHandle.IsValid a
          (run [Op.newHandle Kind.SELF 0, Op.newHandle Kind.INVALID 1, Op.setLocal 2 7]
            (State.startup fun _ => staleRecord)).state = false) ∧
    (∀ a, (staleRecord).st_id = kNoThread →
      ThreadHandle.IsSelf a
          (run [Op.newHandle Kind.SELF 0, Op.newHandle Kind.INVALID 1, Op.setLocal 2 7]
            (State.startup fun _ => staleRecord)).state = true ∧
        ThreadHandle.IsValid a
          (run [Op.newHandle Kind.SELF 0, Op.newHandle Kind.INVALID 1, Op.setLocal 2 7]
            (State.startup fun _ => staleRecord)).state = false) :=
  C13_main_has_sentinel_id (fun _ => staleRecord)
    [Op.newHandle Kind.SELF 0, Op.newHandle Kind.INVALID 1, Op.setLocal 2 7]
    [Ret.unit, Ret.unit, Ret.unit] _ (by decide) rfl

end Sigstack
